import Mathlib

/-!
Shallow embedding of the numba elementwise/reduction kernel generators of
`pytensor/link/numba/dispatch/elemwise.py` and of
`pytensor/tensor/utils.py` (`broadcast_static_dim_lengths`).

Arrays are modelled as a shape together with row-major (C-order) flat data
over `Int`; dtypes are modelled by numpy kind tags plus a bit width, with
explicit wrap-around on casts.  The generated-and-compiled kernels of the
source are modelled by the array functions the generated source text
denotes; the scalar in-place statements are additionally modelled textually
(`scalar_in_place_fn`), exactly as the source builds them.
-/

/-- numpy dtype kind characters used by the source: `i` (signed integer),
`u` (unsigned integer), `f` (floating point). -/
inductive NumKind where
  | i
  | u
  | f
deriving DecidableEq

/-- A numpy dtype: a kind plus a bit width (e.g. `⟨.i, 8⟩` is `int8`,
`⟨.u, 8⟩` is `uint8`). -/
structure DType where
  kind : NumKind
  bits : Nat
deriving DecidableEq

/-- `np.iinfo(dtype).max` for integer dtypes (unused for kind `f`). -/
def iinfoMax (d : DType) : Int :=
  match d.kind with
  | .i => 2 ^ (d.bits - 1) - 1
  | .u => 2 ^ d.bits - 1
  | .f => 0

/-- `np.iinfo(dtype).min` for integer dtypes (unused for kind `f`). -/
def iinfoMin (d : DType) : Int :=
  match d.kind with
  | .i => -(2 ^ (d.bits - 1))
  | .u => 0
  | .f => 0

/-- Casting an integer value to a dtype: integer kinds wrap around modulo
`2^bits` (numpy `astype` / value-store semantics); kind `f` is modelled as
exact (the integer values handled by the claims are exactly representable). -/
def castTo (d : DType) (v : Int) : Int :=
  match d.kind with
  | .i => (v + 2 ^ (d.bits - 1)).emod (2 ^ d.bits) - 2 ^ (d.bits - 1)
  | .u => v.emod (2 ^ d.bits)
  | .f => v

/-- A scalar op's nominal identity value: a finite number, `±np.inf`, or
`np.nan`. -/
inductive IdVal where
  | fin (v : Int)
  | posInf
  | negInf
  | nan
deriving DecidableEq

/-- `np.isfinite` on an identity value. -/
def idIsFinite : IdVal → Bool
  | .fin _ => true
  | _ => false

/-- The identity-clamping step of `numba_funcify_CAReduce`
(elemwise.py lines 600-605):

    if np_acc_dtype.kind == "i" and not np.isfinite(scalar_op_identity):
        if np.isposinf(scalar_op_identity):
            scalar_op_identity = np.iinfo(np_acc_dtype).max
        else:
            scalar_op_identity = np.iinfo(np_acc_dtype).min

Note the kind test is `== "i"`, i.e. signed integers only;
`np.isposinf` is false on `nan`, so `nan` also falls into the `min` arm. -/
def clampIdentity (accD : DType) (id : IdVal) : IdVal :=
  if accD.kind = .i ∧ idIsFinite id = false then
    if id = .posInf then .fin (iinfoMax accD) else .fin (iinfoMin accD)
  else id

/-- An n-dimensional array: a shape and row-major flat data. -/
structure Tensor where
  shape : List Nat
  data : List Int
deriving DecidableEq

/-- All multi-indices of a shape in row-major (`np.ndindex`) order:
last index varies fastest. -/
def allIndices : List Nat → List (List Nat)
  | [] => [[]]
  | d :: s => (List.range d).flatMap (fun i => (allIndices s).map (fun r => i :: r))

/-- Row-major flat position of a multi-index inside a shape. -/
def flatIndex (shape idx : List Nat) : Nat :=
  (shape.zip idx).foldl (fun a p => a * p.1 + p.2) 0

/-- Value of a tensor at a multi-index (0 when out of range; all uses in
the theorems below are in range). -/
def tensorGet (t : Tensor) (idx : List Nat) : Int :=
  t.data.getD (flatIndex t.shape idx) 0

/-- A multi-index is valid for a shape: same length, componentwise in range. -/
def validIdx (s idx : List Nat) : Prop :=
  List.Forall₂ (fun i d => i < d) idx s

instance (s idx : List Nat) : Decidable (validIdx s idx) :=
  inferInstanceAs (Decidable (List.Forall₂ _ _ _))

/-- `np.expand_dims(res, axis)`: insert a length-1 axis; row-major flat
data is unchanged. -/
def expandDims (ax : Nat) (t : Tensor) : Tensor :=
  ⟨t.shape.insertIdx ax 1, t.data⟩

/-- `np.reshape(np.ascontiguousarray(x), s)`: our data is already
row-major contiguous, so a reshape reinterprets the same flat data under a
new shape.  (numpy requires the element counts to match; every use below is
count-preserving by construction.) -/
def reshape (t : Tensor) (s : List Nat) : Tensor :=
  ⟨s, t.data⟩

/-- The single-axis reduction loop of the source generated by
`create_axis_reducer` (elemwise.py lines 272-305), for an already
normalized axis `ax` and an identity value already cast to the result
dtype:

    res = np.full(res_shape, identity, dtype=out_dtype)
    for idx_arr in np.ndindex(res_shape):
        for i in range(axis_shape):
            <in-place update res[idx] with x[idx with i at ax]>

The binary in-place update is the abstract `f : res → arr → i → res`
(the loop counter `i` is an explicit argument because the registered
running-mean statement reads it).  Accumulation along the reduced axis is
in increasing index order, matching `for i in range(axis_shape)`.
Wrap-around of stores into the `out_dtype` buffer can be folded into `f`
by an instantiator; the concrete instances used below stay in range. -/
def reduceAxis (f : Int → Int → Nat → Int) (ident : Int) (ax : Nat) (t : Tensor) : Tensor :=
  let rshape := t.shape.eraseIdx ax
  let axlen := t.shape.getD ax 0
  ⟨rshape, (allIndices rshape).map (fun idx =>
     (List.range axlen).foldl (fun acc i => f acc (tensorGet t (idx.insertIdx ax i)) i) ident)⟩

/-- `numpy.core.numeric.normalize_axis_index(ax, ndim)`: resolve a
possibly negative axis, raising (an `AxisError`, a `ValueError` subclass)
when out of range. -/
def normalize_axis_index (ax : Int) (ndim : Nat) : Except String Nat :=
  if ax < -(ndim : Int) ∨ (ndim : Int) ≤ ax then
    .error "axis is out of bounds for array"
  else if ax < 0 then
    .ok (ax + ndim).toNat
  else
    .ok ax.toNat

/-- The element-by-element normalization
`tuple(normalize_axis_index(ax, ndim) for ax in axis)` performed inside
`numpy.core.numeric.normalize_axis_tuple`, left to right, stopping at the
first failure. -/
def normalizeAxisList (axes : List Int) (ndim : Nat) : Except String (List Nat) :=
  match axes with
  | [] => .ok []
  | a :: rest => do
    let n ← normalize_axis_index a ndim
    let ns ← normalizeAxisList rest ndim
    .ok (n :: ns)

/-- `numpy.core.numeric.normalize_axis_tuple(axes, ndim)` with the default
`allow_duplicate=False`: normalize every entry, then raise
`ValueError("repeated axis")` when the normalized entries are not
pairwise distinct (duplicates are NOT removed). -/
def normalize_axis_tuple (axes : List Int) (ndim : Nat) : Except String (List Nat) := do
  let naxes ← normalizeAxisList axes ndim
  if naxes.Nodup then .ok naxes else .error "repeated axis"

/-- Descending insertion into a descending-sorted list. -/
def insertDesc (x : Nat) : List Nat → List Nat
  | [] => [x]
  | y :: ys => if y ≤ x then x :: y :: ys else y :: insertDesc x ys

/-- `sorted(axes, reverse=True)`: the axes in descending numeric order. -/
def sortDesc (l : List Nat) : List Nat :=
  l.foldl (fun acc x => insertDesc x acc) []

/-- `create_axis_reducer(scalar_op, identity, axis, ndim, dtype, keepdims)`
(elemwise.py lines 172-311): normalize the axis against `ndim`, then the
generated kernel initializes the result buffer with the identity cast to
the result dtype (`np.full(..., identity, dtype=out_dtype)`), folds the
in-place statement along the axis in increasing order, and finally either
keeps the reduced axis as length 1 (`np.expand_dims`) or drops it.  The
`ndim == 1` branch of the source produces a 0-d result
(`np.asarray(res.item())`), which coincides with `reduceAxis` on a rank-1
input; `return_scalar` is never set by the call sites modelled here. -/
def create_axis_reducer (f : Int → Int → Nat → Int) (identity : Int) (axis : Int)
    (ndim : Nat) (dtype : DType) (keepdims : Bool := false) :
    Except String (Tensor → Tensor) := do
  let ax ← normalize_axis_index axis ndim
  .ok (fun t =>
    let r := reduceAxis f (castTo dtype identity) ax t
    if keepdims then expandDims ax r else r)

/-- `create_multiaxis_reducer(scalar_op, identity, axes, ndim, dtype)`
(elemwise.py lines 314-405): a single requested axis delegates directly to
`create_axis_reducer` (before any tuple normalization); otherwise the axis
tuple is normalized (`normalize_axis_tuple`), the normalized axes are
sorted in descending order (`sorted(axes, reverse=True)`), and one
single-axis reducer per axis is chained, each consuming the previous
step's output.  In the source each chained reducer is built by
`create_axis_reducer(scalar_op, identity, axis, current_ndim, dtype)`
where `current_ndim` shrinks by one per step; since the axes are already
normalized, distinct, and processed largest-first, each per-step
`normalize_axis_index(axis, current_ndim)` is the identity, so the chain
is exactly a fold of `reduceAxis`.  The trailing `np.asarray(...)` (with
`return_scalar=False`, the only mode used by the call sites modelled
here) leaves the array unchanged. -/
def create_multiaxis_reducer (f : Int → Int → Nat → Int) (identity : Int)
    (axes : List Int) (ndim : Nat) (dtype : DType) :
    Except String (Tensor → Tensor) :=
  if axes.length = 1 then
    create_axis_reducer f identity (axes.headD 0) ndim dtype
  else do
    let naxes ← normalize_axis_tuple axes ndim
    .ok (fun t =>
      (sortDesc naxes).foldl (fun u ax => reduceAxis f (castTo dtype identity) ax u) t)

/-- The in-place update of the registered `Add` statement
(`res[idx] += arr`), as used by `Sum`/`CAReduce` with `scalar_op = Add`. -/
def addUpdate (res arr : Int) (_i : Nat) : Int := res + arr

/-- The in-place update of the registered `ScalarMaximum` statement
(`if res[idx] < arr: res[idx] = arr`). -/
def maxUpdate (res arr : Int) (_i : Nat) : Int := if res < arr then arr else res

/-- `array.sum()` over all elements (exact integer arithmetic). -/
def npSumAll (t : Tensor) : Int := t.data.foldl (· + ·) 0

/-- A 0-d array holding one value (`np.asarray(scalar)`). -/
def scalarTensor (v : Int) : Tensor := ⟨[], [v]⟩

/-- `np.asarray(array, dtype=d)`: elementwise dtype cast. -/
def castTensor (d : DType) (t : Tensor) : Tensor :=
  ⟨t.shape, t.data.map (castTo d)⟩

/-- `numba_funcify_CAReduce(op, node)` (elemwise.py lines 587-622): the
accumulation dtype is `op.acc_dtype` or else the output dtype (resolved by
the caller here, passed as `accD`); the scalar op's identity is clamped by
`clampIdentity`; `np.array(identity, dtype=np_acc_dtype)` casts it to the
accumulator dtype (raising when a non-finite value meets an integer
dtype — numpy "cannot convert float infinity to integer"); the reducer is
then built over the node's axes (`op.axis`, already normalized
nonnegative by the op's constructor; `None` means all axes) with the
OUTPUT dtype as the buffer dtype.  `jit_compile_reducer` only compiles the
produced source and is semantically the identity here. -/
def numba_funcify_CAReduce (f : Int → Int → Nat → Int) (identity : IdVal)
    (axes : Option (List Nat)) (ndim : Nat) (accD outD : DType) :
    Except String (Tensor → Tensor) := do
  let axesL := axes.getD (List.range ndim)
  let cid := clampIdentity accD identity
  let idInt ← match cid with
    | .fin v => Except.ok (castTo accD v)
    | _ =>
      match accD.kind with
      | .f => Except.error "non-finite identity on a float dtype is outside the integer value model"
      | _ => Except.error "cannot convert float infinity to integer"
  create_multiaxis_reducer f idInt (axesL.map Int.ofNat) ndim outD

/-- `numba_funcify_Sum(op, node)` (elemwise.py lines 550-584): with the
node's axes (`None` meaning all axes), when `ndim_input == len(axes)` the
kernel is `np.asarray(array.sum(), dtype=np_acc_dtype).astype(out_dtype)`;
when `len(axes) == 0` it is `np.asarray(array, dtype=out_dtype)`;
otherwise it delegates to `numba_funcify_CAReduce` (with `scalar_op =
Add`, whose identity is 0). -/
def numba_funcify_Sum (axes : Option (List Nat)) (ndim : Nat) (accD outD : DType) :
    Except String (Tensor → Tensor) :=
  let axesL := (axes.getD (List.range ndim))
  if ndim = axesL.length then
    .ok (fun t => scalarTensor (castTo outD (castTo accD (npSumAll t))))
  else if axesL.length = 0 then
    .ok (fun t => castTensor outD t)
  else
    numba_funcify_CAReduce addUpdate (.fin 0) axes ndim accD outD

/-- The closed set of scalar op classes with a registered
`scalar_in_place_fn` handler (elemwise.py lines 70-133). -/
inductive ScalarOpKind where
  | add
  | sub
  | mean
  | mul
  | mulWithoutZeros
  | and
  | or
  | xor
  | trueDiv
  | intDiv
  | max
  | min
deriving DecidableEq

/-- `scalar_in_place_fn(op, idx, res, arr)` (elemwise.py lines 70-133):
the exact in-place statement text each registered handler formats from
its f-string. -/
def scalar_in_place_fn (k : ScalarOpKind) (idx res arr : String) : String :=
  match k with
  | .add => res ++ "[" ++ idx ++ "] += " ++ arr
  | .sub => res ++ "[" ++ idx ++ "] -= " ++ arr
  | .mean => res ++ "[" ++ idx ++ "] += (" ++ arr ++ " - " ++ res ++ "[" ++ idx ++ "]) / (i + 1)"
  | .mul => res ++ "[" ++ idx ++ "] *= " ++ arr
  | .mulWithoutZeros =>
      res ++ "[" ++ idx ++ "] = " ++ arr ++ " if " ++ res ++ "[" ++ idx ++ "] == 0 else (" ++
        res ++ "[" ++ idx ++ "] if " ++ arr ++ " == 0 else " ++ res ++ "[" ++ idx ++ "] * " ++ arr ++ ")"
  | .and => res ++ "[" ++ idx ++ "] &= " ++ arr
  | .or => res ++ "[" ++ idx ++ "] |= " ++ arr
  | .xor => res ++ "[" ++ idx ++ "] ^= " ++ arr
  | .trueDiv => res ++ "[" ++ idx ++ "] /= " ++ arr
  | .intDiv => res ++ "[" ++ idx ++ "] //= " ++ arr
  | .max => "\nif " ++ res ++ "[" ++ idx ++ "] < " ++ arr ++ ":\n    " ++ res ++ "[" ++ idx ++ "] = " ++ arr ++ "\n"
  | .min => "\nif " ++ res ++ "[" ++ idx ++ "] > " ++ arr ++ ":\n    " ++ res ++ "[" ++ idx ++ "] = " ++ arr ++ "\n"

/-- The value-level semantics of the `MulWithoutZeros` statement
`res[idx] = arr if res[idx] == 0 else (res[idx] if arr == 0 else res[idx] * arr)`. -/
def mulWithoutZerosUpdate (res arr : Int) (_i : Nat) : Int :=
  if res = 0 then arr else if arr = 0 then res else res * arr

/-- The axis lengths of `t` at the axis list `l`. -/
def subShape (t : Tensor) (l : List Nat) : List Nat :=
  l.map (fun a => t.shape.getD a 0)

/-- The inverse index map of an axis permutation: position `m` of the
source index is read from position `perm.indexOf m` of the transposed
index (since axis `k` of the transposed array is axis `perm[k]` of the
source). -/
def permuteIdx (perm idx : List Nat) : List Nat :=
  (List.range perm.length).map (fun m => idx.getD (perm.findIdx (fun x => x == m)) 0)

/-- `np.transpose(x, perm)`: axis `k` of the result is axis `perm[k]` of
the input; the result is materialized in row-major order (the source
always passes transposed arrays through `np.ascontiguousarray`). -/
def npTranspose (perm : List Nat) (t : Tensor) : Tensor :=
  let shape' := subShape t perm
  ⟨shape', (allIndices shape').map (fun idx => tensorGet t (permuteIdx perm idx))⟩

/-- The parameters a `DimShuffle` op carries (consumed at lines 625-630):
`shuffle` (the kept input axes, in output order), `transposition` (the
axis permutation applied first), `augment` (output positions where a
length-1 axis is inserted), `inplace`, and the statically known output
shape of the node when every entry is known. -/
structure DimShuffleParams where
  shuffle : List Nat
  transposition : List Nat
  augment : List Nat
  inplace : Bool
  staticShape : Option (List Nat)

/-- The `find_shape` helper generated at lines 653-679: starting from a
template of 1s of length `ndim_new_shape`, positions not in `augment`
receive the next entry of the (transposed) array shape.  Here `is`
iterates over `range ndim_new_shape` and `j` is the running source
position. -/
def findShapeLoop (augment arrayShape : List Nat) : List Nat → Nat → List Nat
  | [], _ => []
  | i :: rest, j =>
    if i ∈ augment then 1 :: findShapeLoop augment arrayShape rest j
    else arrayShape.getD j 0 :: findShapeLoop augment arrayShape rest (j + 1)

/-- `find_shape(array_shape)` of `numba_funcify_DimShuffle`: the constant
statically-known output shape when available; otherwise the dynamic
interleaving loop; and the all-1s template when `len(shuffle) == 0`. -/
def find_shape (p : DimShuffleParams) (arrayShape : List Nat) : List Nat :=
  let ndimNew := p.shuffle.length + p.augment.length
  if p.shuffle.length > 0 then
    match p.staticShape with
    | some s => s
    | none => findShapeLoop p.augment arrayShape (List.range ndimNew) 0
  else
    List.replicate ndimNew 1

/-- `all(i == j for i, j in enumerate(transposition))` (line 634). -/
def noTranspose (transposition : List Nat) : Bool :=
  ((List.range transposition.length).zip transposition).all (fun q => q.1 == q.2)

/-- The kernel built by `numba_funcify_DimShuffle(op, node)` (elemwise.py
lines 625-719): an optional transpose (skipped — identity — when the
transposition is the identity permutation), then a reshape of the
contiguity-normalized array into the shape computed by `find_shape` from
the first `len(shuffle)` transposed axis lengths; rank-0 outputs reshape
to `()` directly.  The final `.copy()` for the not-inplace case does not
change the value. -/
def numba_funcify_DimShuffle (p : DimShuffleParams) (t : Tensor) : Tensor :=
  let ndimNew := p.shuffle.length + p.augment.length
  if ndimNew > 0 then
    let x := if noTranspose p.transposition then t else npTranspose p.transposition t
    let shuffleShape := x.shape.take p.shuffle.length
    reshape x (find_shape p shuffleShape)
  else
    reshape t []

/-- `np.argmax` over a 1-d array: the index of the first occurrence of the
maximum value (0 on empty input, never reached by the call sites here). -/
def npArgmaxAux : List Int → Nat → Nat → Int → Nat
  | [], _, bi, _ => bi
  | x :: rest, i, bi, bv =>
    if bv < x then npArgmaxAux rest (i + 1) i x else npArgmaxAux rest (i + 1) bi bv

/-- First-occurrence argmax of a 1-d list of values. -/
def npArgmax : List Int → Nat
  | [] => 0
  | x :: rest => npArgmaxAux rest 1 0 x

/-- The `axis_apply_fn` closure built by `create_axis_apply_fn` (lines
455-463): transpose the axis to the last position, then apply `fn` to the
trailing 1-d slice at every remaining coordinate
(`for m in np.ndindex(res.shape): res[m] = fn(x_reaxis[m])`). -/
def axis_apply_kernel (fn : List Int → Int) (reaxisFirst : List Nat) (x : Tensor) : Tensor :=
  let xr := npTranspose reaxisFirst x
  let resShape := xr.shape.dropLast
  let lastLen := xr.shape.getLast?.getD 0
  ⟨resShape, (allIndices resShape).map (fun m =>
    fn ((List.range lastLen).map (fun j => tensorGet xr (m ++ [j]))))⟩

/-- `create_axis_apply_fn(fn, axis, ndim, dtype)` (elemwise.py lines
450-465): normalize the axis, compute the permutation
`reaxis_first = (*(i for i in range(ndim) if i != axis), axis)` moving it
to the last position, and return the apply closure. -/
def create_axis_apply_fn (fn : List Int → Int) (axis : Int) (ndim : Nat) :
    Except String (Tensor → Tensor) := do
  let ax ← normalize_axis_index axis ndim
  .ok (axis_apply_kernel fn ((List.range ndim).filter (fun i => i ≠ ax) ++ [ax]))

/-- The `argmax` closure built by `numba_funcify_Argmax` (lines 860-877):
transpose the kept axes to the front
(`np.transpose(x, keep_axes + axes)` plus `np.ascontiguousarray`),
flatten the reduced axes into one trailing axis of length
`prod(reduced_shape)` (accumulated by `reduced_size *= s` from 1), and
apply the trailing-axis argmax. -/
def argmax_kernel (argmaxAxis : Tensor → Tensor) (keepAxes axes : List Nat)
    (x : Tensor) : Tensor :=
  let tx := npTranspose (keepAxes ++ axes) x
  let keptShape := tx.shape.take keepAxes.length
  let reducedShape := tx.shape.drop keepAxes.length
  let reducedSize := reducedShape.foldl (· * ·) 1
  argmaxAxis (reshape tx (keptShape ++ [reducedSize]))

/-- `keep_axes = tuple(i for i in range(x_ndim) if i not in axes)`
(line 849): the non-reduced axes, in order. -/
def keep_axes (axes : List Nat) (ndim : Nat) : List Nat :=
  (List.range ndim).filter (fun i => i ∉ axes)

/-- `numba_funcify_Argmax(op, node)` (elemwise.py lines 830-879): rank-0
inputs return the constant index 0; otherwise build the trailing-axis
argmax applier over the flattened rank `ndim - len(axes) + 1` and return
the `argmax` closure above. -/
def numba_funcify_Argmax (axes : List Nat) (ndim : Nat) :
    Except String (Tensor → Tensor) :=
  if ndim = 0 then
    .ok (fun _ => scalarTensor 0)
  else do
    let reducedNdim := ndim - axes.length + 1
    let argmaxAxis ← create_axis_apply_fn (fun l => Int.ofNat (npArgmax l))
      (Int.ofNat (reducedNdim - 1)) reducedNdim
    .ok (argmax_kernel argmaxAxis (keep_axes axes ndim) axes)

/-- The full multi-index obtained by placing the kept coordinate `m` at
the kept axes and the reduced coordinate `r` at the reduced axes
(the claim's "kept coordinate" plus a position inside its reduced-axes
block). -/
def mergeIdx (keepAxes axes : List Nat) (ndim : Nat) (m r : List Nat) : List Nat :=
  (List.range ndim).map (fun a =>
    if a ∈ axes then r.getD (axes.findIdx (fun x => x == a)) 0
    else m.getD (keepAxes.findIdx (fun x => x == a)) 0)

/-- The behavior C8 ascribes to the Argmax kernel, written from the
claim's words: for each kept coordinate, the flat (row-major) index of the
first maximum inside the block of values obtained by letting the reduced
axes range jointly. -/
def argmaxJointSpec (axes : List Nat) (t : Tensor) : Tensor :=
  let ndim := t.shape.length
  let keepAxes := keep_axes axes ndim
  let keptShape := subShape t keepAxes
  let redShape := subShape t axes
  ⟨keptShape, (allIndices keptShape).map (fun m =>
    Int.ofNat (npArgmax ((allIndices redShape).map (fun r =>
      tensorGet t (mergeIdx keepAxes axes ndim m r)))))⟩

/-- Pairwise numpy broadcast of two shapes, right-aligned: each pair of
axis lengths must be equal or contain a 1. -/
def broadcastTwo (a b : List Nat) : Except String (List Nat) :=
  let n := Nat.max a.length b.length
  let a' := List.replicate (n - a.length) 1 ++ a
  let b' := List.replicate (n - b.length) 1 ++ b
  if (a'.zip b').all (fun q => q.1 == q.2 || q.1 == 1 || q.2 == 1) then
    .ok ((a'.zip b').map (fun q => Nat.max q.1 q.2))
  else
    .error "shape mismatch: objects cannot be broadcast to a single shape"

/-- The common shape `np.broadcast_arrays` gives a list of shapes
(raising when they are incompatible). -/
def broadcastShapes (shapes : List (List Nat)) : Except String (List Nat) :=
  shapes.foldlM broadcastTwo []

/-- Stretch a tensor to a broadcast shape: length-1 axes repeat their
single entry; axes are right-aligned as in numpy. -/
def broadcastTo (bs : List Nat) (t : Tensor) : Tensor :=
  let off := bs.length - t.shape.length
  ⟨bs, (allIndices bs).map (fun idx =>
    tensorGet t ((List.range t.shape.length).map (fun d =>
      if t.shape.getD d 0 = 1 then 0 else idx.getD (off + d) 0)))⟩

/-- The broadcast-violation scan of the reference `elemwise` (lines
520-523): for each input, `zip(input.shape, bc, shape)` — where `shape`
is the shape of the FIRST input — raises `ValueError("Broadcast not
allowed.")` when an axis has length 1, is not flagged broadcastable, and
the first input's length for that axis differs from 1 (and the first
input is not rank 0). -/
def checkBroadcast (shape : List Nat) : List (Tensor × List Bool) → Except String Unit
  | [] => .ok ()
  | (input, bc) :: rest =>
    if ((input.shape.zip bc).zip shape).any (fun q =>
        q.1.1 == 1 && !shape.isEmpty && q.2 != 1 && !q.1.2) then
      .error "Broadcast not allowed."
    else
      checkBroadcast shape rest

/-- `output.sum(axes, keepdims=True)` where `axes` are the positions
flagged broadcastable in the output's own pattern (lines 535-538). -/
def sumKeepdims (axs : List Nat) (t : Tensor) : Tensor :=
  let outShape := (List.range t.shape.length).map (fun i => if i ∈ axs then 1 else t.shape.getD i 0)
  let redShape := (List.range t.shape.length).map (fun i => if i ∈ axs then t.shape.getD i 0 else 1)
  ⟨outShape, (allIndices outShape).map (fun idx =>
    (allIndices redShape).foldl (fun acc ridx =>
      acc + tensorGet t ((idx.zip ridx).map (fun q => q.1 + q.2))) 0)⟩

/-- The pure-Python reference `elemwise(*inputs)` built by
`numba_funcify_Elemwise` (elemwise.py lines 516-541): broadcast all
inputs (`np.broadcast_arrays`), take `shape = inputs[0].shape`, run the
broadcast-violation scan, evaluate the scalar function at every
coordinate of `shape` collecting one buffer per output, then for every
output sum-reduce (keepdims) along the axes flagged broadcastable in that
output's own pattern.  A single output is returned unwrapped in the
source; here the output list is always returned. -/
def elemwise (scalarFn : List Int → List Int)
    (input_bc_patterns : List (List Bool)) (output_bc_patterns : List (List Bool))
    (output_dtypes : List DType) (inputs : List Tensor) :
    Except String (List Tensor) := do
  let bs ← broadcastShapes (inputs.map (fun t => t.shape))
  let inputs_bc := inputs.map (broadcastTo bs)
  let shape := (inputs.headD ⟨[], []⟩).shape
  let _ ← checkBroadcast shape (inputs.zip input_bc_patterns)
  let outputs := (List.range output_dtypes.length).map (fun k =>
    (⟨shape, (allIndices shape).map (fun idx =>
      castTo (output_dtypes.getD k ⟨.f, 64⟩)
        ((scalarFn (inputs_bc.map (fun i => tensorGet i idx))).getD k 0))⟩ : Tensor))
  let outputs_summed := (outputs.zip output_bc_patterns).map (fun q =>
    sumKeepdims ((List.range q.2.length).filter (fun i => q.2.getD i false)) q.1)
  .ok outputs_summed

/-- `numba_funcify_Elemwise(op, node)` (elemwise.py lines 468-547):
derives the scalar kernel, encodes the broadcast patterns, dtypes and
in-place pattern as compile-time constants, and returns the elementwise
kernel (whose pure reference implementation is `elemwise` above).  There
is NO output-arity check anywhere in this builder: construction is total
in the number of outputs. -/
def numba_funcify_Elemwise (scalarFn : List Int → List Int)
    (input_bc_patterns : List (List Bool)) (output_bc_patterns : List (List Bool))
    (output_dtypes : List DType) : List Tensor → Except String (List Tensor) :=
  elemwise scalarFn input_bc_patterns output_bc_patterns output_dtypes

/-- `create_vectorize_func(scalar_op_fn, node, ...)` (elemwise.py lines
136-169): raises `NotImplementedError` when the node has more than one
output, before anything else; otherwise wraps the scalar function with
`numba.vectorize`.  The vectorize machinery itself is external to this
repository; per the spec, "the batched primitive applies standard
broadcasting (stretch length-1 axes ... to match peer lengths) and writes
results elementwise", modelled here as broadcast-then-map. -/
def create_vectorize_func (scalarFn : List Int → Int) (nOutputs : Nat) :
    Except String (List Tensor → Except String Tensor) :=
  if nOutputs > 1 then
    .error "Multi-output Elemwise Ops are not supported by the Numba backend"
  else
    .ok (fun inputs => do
      let bs ← broadcastShapes (inputs.map (fun t => t.shape))
      let inputs_bc := inputs.map (broadcastTo bs)
      .ok ⟨bs, (allIndices bs).map (fun idx => scalarFn (inputs_bc.map (fun i => tensorGet i idx)))⟩)

/-- `broadcast_static_dim_lengths(dim_lengths)` (tensor/utils.py lines
139-163): with the set of distinct entries, return the unique entry when
there is only one; return `None` when the set is exactly an unknown plus
a 1; otherwise discard 1 and `None` and raise `ValueError` when more than
one distinct length remains, else return the remaining length
(`next(iter(...))`, a `StopIteration` on an empty set — unreachable for
the nonempty inputs of the claim). -/
def broadcast_static_dim_lengths (dim_lengths : List (Option Nat)) :
    Except String (Option Nat) :=
  let s := dim_lengths.dedup
  if s.length = 1 then .ok (s.headD none)
  else if s.length = 2 ∧ none ∈ s ∧ some 1 ∈ s then .ok none
  else
    let s2 := ((s.filter (fun x => x ≠ some 1)).filter (fun x => x ≠ none))
    if s2.length > 1 then .error "ValueError"
    else
      match s2 with
      | [] => .error "StopIteration"
      | x :: _ => .ok x

deriving instance DecidableEq for Except

/-- The value `normalize_axis_index` resolves an in-range axis to:
negative axes shifted by the rank. -/
def resolveAxis (ndim : Nat) (a : Int) : Nat :=
  (if a < 0 then a + ndim else a).toNat

/-- The scalar kernel of a two-input elementwise `add` node (one output). -/
def addScalarFn (vals : List Int) : List Int := [vals.getD 0 0 + vals.getD 1 0]

/-- The scalar kernel of a two-input, two-output elementwise node
(e.g. a `Composite` with outputs `x + y` and `x * y`). -/
def addMulScalarFn (vals : List Int) : List Int :=
  [vals.getD 0 0 + vals.getD 1 0, vals.getD 0 0 * vals.getD 1 0]

/-! ### Basic list and index lemmas -/

lemma getD_map_of_lt {α β : Type} (f : α → β) (l : List α) (n : Nat) (h : n < l.length)
    (d : α) (d' : β) : (l.map f).getD n d' = f (l.getD n d) := by
  rw [List.getD_eq_getElem (l.map f) d' (by simpa using h), List.getD_eq_getElem l d h,
    List.getElem_map]

lemma getD_range_of_lt (n m : Nat) (h : m < n) : (List.range n).getD m 0 = m := by
  rw [List.getD_eq_getElem _ _ (by simpa using h), List.getElem_range]

lemma map_getD_range_self {α : Type} (l : List α) (d : α) :
    (List.range l.length).map (fun i => l.getD i d) = l := by
  induction l with
  | nil => simp
  | cons a l ih =>
    rw [List.length_cons, List.range_succ_eq_map, List.map_cons, List.map_map]
    have h2 : List.map ((fun i => (a :: l).getD i d) ∘ Nat.succ) (List.range l.length)
        = List.map (fun i => l.getD i d) (List.range l.length) := by
      apply List.map_congr_left
      intro i _
      simp [List.getD_cons_succ]
    rw [show (a :: l).getD 0 d = a from rfl, h2, ih]

lemma forall₂_append_of {α β : Type} {R : α → β → Prop} {a₁ a₂ : List α} {b₁ b₂ : List β}
    (h₁ : List.Forall₂ R a₁ b₁) (h₂ : List.Forall₂ R a₂ b₂) :
    List.Forall₂ R (a₁ ++ a₂) (b₁ ++ b₂) := by
  induction h₁ with
  | nil => simpa
  | cons h _ ih => exact List.Forall₂.cons h ih

lemma validIdx_length {s idx : List Nat} (h : validIdx s idx) : idx.length = s.length :=
  List.Forall₂.length_eq h

/-! ### `allIndices` and `flatIndex` -/

lemma length_allIndices (s : List Nat) : (allIndices s).length = s.prod := by
  induction s with
  | nil => simp [allIndices]
  | cons d s ih =>
    rw [allIndices, List.length_flatMap]
    have h2 : ∀ i ∈ List.range d,
        (List.length ∘ fun i => (allIndices s).map (fun r => i :: r)) i = s.prod := by
      intro i _
      simp [Function.comp, ih]
    rw [List.map_congr_left h2, List.map_const', List.length_range, List.sum_replicate,
      smul_eq_mul, List.prod_cons]

lemma mem_allIndices {s idx : List Nat} : idx ∈ allIndices s ↔ validIdx s idx := by
  induction s generalizing idx with
  | nil =>
    simp [allIndices, validIdx, List.forall₂_nil_right_iff]
  | cons d s ih =>
    simp only [allIndices, List.mem_flatMap, List.mem_map, List.mem_range]
    constructor
    · rintro ⟨i, hi, r, hr, rfl⟩
      exact List.Forall₂.cons hi (ih.mp hr)
    · intro h
      cases h with
      | cons hi hr => exact ⟨_, hi, _, ih.mpr hr, rfl⟩

lemma length_of_mem_allIndices {s idx : List Nat} (h : idx ∈ allIndices s) :
    idx.length = s.length :=
  validIdx_length (mem_allIndices.mp h)

lemma flat_foldl_shift (z : List (Nat × Nat)) (a : Nat) :
    z.foldl (fun a p => a * p.1 + p.2) a =
      a * (z.map Prod.fst).prod + z.foldl (fun a p => a * p.1 + p.2) 0 := by
  induction z generalizing a with
  | nil => simp
  | cons p z ih =>
    simp only [List.foldl_cons, List.map_cons, List.prod_cons]
    rw [ih (a * p.1 + p.2), ih (0 * p.1 + p.2)]
    ring

lemma flatIndex_cons (d : Nat) (s : List Nat) (i : Nat) (idx : List Nat)
    (h : s.length ≤ idx.length) :
    flatIndex (d :: s) (i :: idx) = i * s.prod + flatIndex s idx := by
  simp only [flatIndex, List.zip_cons_cons, List.foldl_cons]
  rw [flat_foldl_shift (s.zip idx) (0 * d + i), List.map_fst_zip s idx h]
  ring_nf

lemma flatIndex_append (s₁ s₂ i₁ i₂ : List Nat) (h₁ : s₁.length = i₁.length)
    (h₂ : s₂.length ≤ i₂.length) :
    flatIndex (s₁ ++ s₂) (i₁ ++ i₂) = flatIndex s₁ i₁ * s₂.prod + flatIndex s₂ i₂ := by
  simp only [flatIndex]
  rw [List.zip_append h₁, List.foldl_append,
    flat_foldl_shift (s₂.zip i₂) (List.foldl _ 0 (s₁.zip i₁)), List.map_fst_zip s₂ i₂ h₂]

lemma flatIndex_lt_prod {s idx : List Nat} (h : validIdx s idx) : flatIndex s idx < s.prod := by
  induction h with
  | nil => simp [flatIndex]
  | @cons i d idx s hid htail ih =>
    rw [flatIndex_cons d s i idx (validIdx_length htail).ge]
    calc i * s.prod + flatIndex s idx < i * s.prod + s.prod := by omega
    _ = (i + 1) * s.prod := by ring
    _ ≤ d * s.prod := Nat.mul_le_mul_right _ hid
    _ = (d :: s).prod := (List.prod_cons).symm

lemma flatIndex_inj {s a b : List Nat} (ha : validIdx s a) (hb : validIdx s b)
    (h : flatIndex s a = flatIndex s b) : a = b := by
  induction s generalizing a b with
  | nil =>
    cases List.forall₂_nil_right_iff.mp ha
    cases List.forall₂_nil_right_iff.mp hb
    rfl
  | cons d s ih =>
    obtain ⟨i, a', rfl, hid, ha'⟩ :
        ∃ i a'', a = i :: a'' ∧ i < d ∧ validIdx s a'' := by
      cases ha with
      | cons h1 h2 => exact ⟨_, _, rfl, h1, h2⟩
    obtain ⟨j, b', rfl, hjd, hb'⟩ :
        ∃ j b'', b = j :: b'' ∧ j < d ∧ validIdx s b'' := by
      cases hb with
      | cons h1 h2 => exact ⟨_, _, rfl, h1, h2⟩
    rw [flatIndex_cons d s i a' (validIdx_length ha').ge,
      flatIndex_cons d s j b' (validIdx_length hb').ge] at h
    have hfa := flatIndex_lt_prod ha'
    have hfb := flatIndex_lt_prod hb'
    have hij : i = j := by
      rcases Nat.lt_trichotomy i j with hlt | heq | hgt
      · exfalso
        have : i * s.prod + flatIndex s a' < j * s.prod + flatIndex s b' := by
          calc i * s.prod + flatIndex s a' < (i + 1) * s.prod := by nlinarith
          _ ≤ j * s.prod := Nat.mul_le_mul_right _ hlt
          _ ≤ j * s.prod + flatIndex s b' := by omega
        omega
      · exact heq
      · exfalso
        have : j * s.prod + flatIndex s b' < i * s.prod + flatIndex s a' := by
          calc j * s.prod + flatIndex s b' < (j + 1) * s.prod := by nlinarith
          _ ≤ i * s.prod := Nat.mul_le_mul_right _ hgt
          _ ≤ i * s.prod + flatIndex s a' := by omega
        omega
    subst hij
    have : flatIndex s a' = flatIndex s b' := by omega
    rw [ih ha' hb' this]

lemma range_mul_flatMap (d P : Nat) :
    (List.range d).flatMap (fun i => (List.range P).map (fun r => i * P + r)) =
      List.range (d * P) := by
  induction d with
  | zero => simp
  | succ d ih =>
    rw [List.range_succ, List.flatMap_append, ih]
    have : List.range (d * P + P) = List.range (d * P) ++ (List.range P).map (fun x => d * P + x) :=
      List.range_add (d * P) P
    simp only [List.flatMap_cons, List.flatMap_nil, List.append_nil]
    rw [Nat.succ_mul, this]

lemma map_flatIndex_allIndices (s : List Nat) :
    (allIndices s).map (flatIndex s) = List.range s.prod := by
  induction s with
  | nil =>
    show [flatIndex [] []] = List.range 1
    rfl
  | cons d s ih =>
    rw [allIndices, List.map_flatMap]
    have h2 : ∀ i ∈ List.range d,
        List.map (flatIndex (d :: s)) ((allIndices s).map (fun r => i :: r)) =
          (List.range s.prod).map (fun r => i * s.prod + r) := by
      intro i _
      rw [List.map_map, ← ih, List.map_map]
      apply List.map_congr_left
      intro r hr
      simp only [Function.comp]
      rw [flatIndex_cons d s i r (length_of_mem_allIndices hr).ge]
    rw [List.flatMap_congr h2, range_mul_flatMap, List.prod_cons]

lemma getD_allIndices_flatIndex {s idx : List Nat} (h : validIdx s idx) :
    (allIndices s).getD (flatIndex s idx) [] = idx := by
  have hlt : flatIndex s idx < (allIndices s).length := by
    rw [length_allIndices]
    exact flatIndex_lt_prod h
  have hmem : (allIndices s).getD (flatIndex s idx) [] ∈ allIndices s := by
    rw [List.getD_eq_getElem _ _ hlt]
    exact List.getElem_mem hlt
  have hflat : flatIndex s ((allIndices s).getD (flatIndex s idx) []) = flatIndex s idx := by
    have := congrArg (fun l => l.getD (flatIndex s idx) 0) (map_flatIndex_allIndices s)
    simp only at this
    rw [getD_map_of_lt (flatIndex s) (allIndices s) _ hlt [],
      getD_range_of_lt _ _ (by rw [← length_allIndices]; exact hlt)] at this
    exact this
  exact flatIndex_inj (mem_allIndices.mp hmem) h hflat

lemma tensorGet_mk_map (s : List Nat) (g : List Nat → Int) {idx : List Nat}
    (h : validIdx s idx) :
    tensorGet ⟨s, (allIndices s).map g⟩ idx = g idx := by
  have hlt : flatIndex s idx < (allIndices s).length := by
    rw [length_allIndices]
    exact flatIndex_lt_prod h
  rw [tensorGet]
  simp only
  rw [getD_map_of_lt g (allIndices s) _ hlt [], getD_allIndices_flatIndex h]

lemma map_tensorGet_allIndices (t : Tensor) (h : t.data.length = t.shape.prod) :
    (allIndices t.shape).map (tensorGet t) = t.data := by
  have : (allIndices t.shape).map (tensorGet t) =
      ((allIndices t.shape).map (flatIndex t.shape)).map (fun n => t.data.getD n 0) := by
    rw [List.map_map]
    rfl
  rw [this, map_flatIndex_allIndices, ← h, map_getD_range_self]

/-! ### `findIdx` helpers -/

lemma findIdx_lt_of_mem {α : Type} [BEq α] [LawfulBEq α] {a : α} {l : List α} (h : a ∈ l) :
    l.findIdx (fun x => x == a) < l.length := by
  induction l with
  | nil => simp at h
  | cons b l ih =>
    rw [List.findIdx_cons]
    by_cases hb : (b == a) = true
    · simp [hb]
    · simp only [hb, cond_false, List.length_cons]
      have : a ∈ l := by
        rcases List.mem_cons.mp h with rfl | hmem
        · exact absurd (beq_self_eq_true a) hb
        · exact hmem
      exact Nat.succ_lt_succ (ih this)

lemma findIdx_append_of_lt {α : Type} (p : α → Bool) (l₁ l₂ : List α)
    (h : l₁.findIdx p < l₁.length) : (l₁ ++ l₂).findIdx p = l₁.findIdx p := by
  induction l₁ with
  | nil => simp at h
  | cons a l ih =>
    rw [List.cons_append, List.findIdx_cons, List.findIdx_cons]
    by_cases ha : p a
    · simp [ha]
    · simp only [ha, cond_false]
      rw [List.findIdx_cons] at h
      simp only [ha, cond_false, List.length_cons] at h
      rw [ih (by omega)]

lemma findIdx_append_of_none {α : Type} (p : α → Bool) (l₁ l₂ : List α)
    (h : ∀ a ∈ l₁, p a = false) : (l₁ ++ l₂).findIdx p = l₁.length + l₂.findIdx p := by
  induction l₁ with
  | nil => simp
  | cons a l ih =>
    rw [List.cons_append, List.findIdx_cons]
    have ha : p a = false := h a (List.mem_cons_self a l)
    simp only [ha, cond_false, List.length_cons]
    rw [ih (fun b hb => h b (List.mem_cons_of_mem a hb))]
    omega

lemma getD_findIdx_beq {α : Type} [BEq α] [LawfulBEq α] {a : α} {l : List α} (h : a ∈ l)
    (d : α) : l.getD (l.findIdx (fun x => x == a)) d = a := by
  induction l with
  | nil => simp at h
  | cons b l ih =>
    rw [List.findIdx_cons]
    by_cases hb : (b == a) = true
    · simp [hb, eq_of_beq hb]
    · simp only [hb, cond_false]
      have : a ∈ l := by
        rcases List.mem_cons.mp h with rfl | hmem
        · exact absurd (beq_self_eq_true a) hb
        · exact hmem
      rw [List.getD_cons_succ]
      exact ih this

lemma findIdx_range_beq {m n : Nat} (h : m < n) :
    (List.range n).findIdx (fun x => x == m) = m := by
  induction n with
  | zero => omega
  | succ n ih =>
    rw [List.range_succ]
    by_cases hm : m < n
    · rw [findIdx_append_of_lt _ _ _ (by rw [ih hm]; simpa using hm), ih hm]
    · have hmn : m = n := by omega
      subst hmn
      rw [findIdx_append_of_none _ _ _ (fun a ha => by
        simp only [beq_eq_false_iff_ne, ne_eq]
        exact Nat.ne_of_lt (List.mem_range.mp ha)), List.length_range]
      simp [List.findIdx_cons]

/-! ### `sortDesc` -/

lemma mem_insertDesc {x a : Nat} {l : List Nat} : a ∈ insertDesc x l ↔ a = x ∨ a ∈ l := by
  induction l with
  | nil => simp [insertDesc]
  | cons y ys ih =>
    rw [insertDesc]
    by_cases h : y ≤ x
    · simp [h]
    · simp only [h, if_false, List.mem_cons, ih]
      tauto

lemma insertDesc_perm (x : Nat) (l : List Nat) : (insertDesc x l).Perm (x :: l) := by
  induction l with
  | nil => simp [insertDesc]
  | cons y ys ih =>
    rw [insertDesc]
    by_cases h : y ≤ x
    · simp [h]
    · simp only [h, if_false]
      exact (List.Perm.cons y ih).trans (List.Perm.swap x y ys)

lemma insertDesc_pairwise {x : Nat} {l : List Nat} (h : l.Pairwise (· ≥ ·)) :
    (insertDesc x l).Pairwise (· ≥ ·) := by
  induction l with
  | nil => simp [insertDesc]
  | cons y ys ih =>
    rw [insertDesc]
    rcases List.pairwise_cons.mp h with ⟨hy, hys⟩
    by_cases hx : y ≤ x
    · rw [if_pos hx]
      refine List.pairwise_cons.mpr ⟨?_, h⟩
      intro b hb
      rcases List.mem_cons.mp hb with rfl | hmem
      · exact hx
      · exact le_trans (hy b hmem) hx
    · rw [if_neg hx]
      refine List.pairwise_cons.mpr ⟨?_, ih hys⟩
      intro b hb
      rcases mem_insertDesc.mp hb with rfl | hmem
      · omega
      · exact hy b hmem

lemma sortDesc_perm (l : List Nat) : (sortDesc l).Perm l := by
  suffices h : ∀ (l acc : List Nat), (l.foldl (fun acc x => insertDesc x acc) acc).Perm (l ++ acc) by
    simpa using h l []
  intro l
  induction l with
  | nil => simp
  | cons x xs ih =>
    intro acc
    rw [List.foldl_cons, List.cons_append]
    exact ((ih _).trans (List.Perm.append_left xs (insertDesc_perm x acc))).trans
      List.perm_middle

lemma sortDesc_pairwise (l : List Nat) : (sortDesc l).Pairwise (· ≥ ·) := by
  suffices h : ∀ (l acc : List Nat), acc.Pairwise (· ≥ ·) →
      (l.foldl (fun acc x => insertDesc x acc) acc).Pairwise (· ≥ ·) by
    exact h l [] (by simp)
  intro l
  induction l with
  | nil => exact fun acc h => h
  | cons x xs ih =>
    intro acc hacc
    rw [List.foldl_cons]
    exact ih _ (insertDesc_pairwise hacc)

lemma sortDesc_strict_of_nodup {l : List Nat} (h : l.Nodup) :
    (sortDesc l).Pairwise (· > ·) := by
  have hnd : (sortDesc l).Nodup := ((sortDesc_perm l).nodup_iff).mpr h
  have := (sortDesc_pairwise l).and hnd
  exact this.imp (fun hab => lt_of_le_of_ne hab.1.le (Ne.symm hab.2))

lemma sortDesc_range (n : Nat) : sortDesc (List.range n) = (List.range n).reverse := by
  induction n with
  | zero => rfl
  | succ n ih =>
    rw [List.range_succ, sortDesc, List.foldl_append, List.foldl_cons, List.foldl_nil,
      List.reverse_append]
    have hfold : List.foldl (fun acc x => insertDesc x acc) [] (List.range n) =
        sortDesc (List.range n) := rfl
    rw [hfold, ih]
    cases n with
    | zero => rfl
    | succ m =>
      rw [List.range_succ, List.reverse_append]
      simp only [List.reverse_cons, List.reverse_nil, List.nil_append, List.singleton_append]
      rw [insertDesc, if_pos (by omega)]

/-! ### Axis normalization lemmas -/

lemma normalize_axis_index_ofNat {a ndim : Nat} (h : a < ndim) :
    normalize_axis_index (Int.ofNat a) ndim = .ok a := by
  rw [show Int.ofNat a = (a : Int) from rfl, normalize_axis_index, if_neg (by omega),
    if_neg (by omega)]
  simp

lemma normalizeAxisList_map_ofNat {axes : List Nat} {ndim : Nat}
    (h : ∀ a ∈ axes, a < ndim) :
    normalizeAxisList (axes.map Int.ofNat) ndim = .ok axes := by
  induction axes with
  | nil => rfl
  | cons a rest ih =>
    rw [List.map_cons, normalizeAxisList,
      normalize_axis_index_ofNat (h a (List.mem_cons_self a rest))]
    rw [ih (fun b hb => h b (List.mem_cons_of_mem a hb))]
    rfl

lemma normalizeAxisList_error {axes : List Int} {ndim : Nat}
    (h : ∃ a ∈ axes, a < -(ndim : Int) ∨ (ndim : Int) ≤ a) :
    normalizeAxisList axes ndim = .error "axis is out of bounds for array" := by
  induction axes with
  | nil => simp at h
  | cons a rest ih =>
    rw [normalizeAxisList]
    by_cases ha : a < -(ndim : Int) ∨ (ndim : Int) ≤ a
    · rw [normalize_axis_index, if_pos ha]
      rfl
    · obtain ⟨b, hb, hbr⟩ := h
      rcases List.mem_cons.mp hb with rfl | hmem
      · exact absurd hbr ha
      · rw [normalize_axis_index, if_neg ha]
        by_cases haneg : a < 0
        · rw [if_pos haneg]
          rw [ih ⟨b, hmem, hbr⟩]
          rfl
        · rw [if_neg haneg]
          rw [ih ⟨b, hmem, hbr⟩]
          rfl

/-! ### Transpose lemmas -/

lemma permuteIdx_range {n : Nat} {idx : List Nat} (h : idx.length = n) :
    permuteIdx (List.range n) idx = idx := by
  rw [permuteIdx, List.length_range]
  have h2 : ∀ m ∈ List.range n,
      idx.getD ((List.range n).findIdx (fun x => x == m)) 0 = idx.getD m 0 := by
    intro m hm
    rw [findIdx_range_beq (List.mem_range.mp hm)]
  rw [List.map_congr_left h2, ← h, map_getD_range_self]

lemma subShape_range (t : Tensor) (n : Nat) (hlen : t.shape.length = n) :
    subShape t (List.range n) = t.shape := by
  rw [subShape, ← hlen, map_getD_range_self]

lemma npTranspose_range (t : Tensor) (n : Nat) (hlen : t.shape.length = n)
    (hdata : t.data.length = t.shape.prod) : npTranspose (List.range n) t = t := by
  rw [npTranspose]
  simp only [subShape_range t n hlen]
  have hmap : ∀ idx ∈ allIndices t.shape,
      tensorGet t (permuteIdx (List.range n) idx) = tensorGet t idx := by
    intro idx hidx
    rw [permuteIdx_range (by rw [length_of_mem_allIndices hidx, hlen])]
  rw [List.map_congr_left hmap, map_tensorGet_allIndices t hdata]

/-! ### Claim theorems -/

/-- C1: The multi-axis reducer built by `create_multiaxis_reducer` folds
the requested axes one at a time in strictly descending numeric axis
order; in particular, reducing over all axes of a rank-n array gives
exactly the result of applying the single-axis reducer once per axis from
the highest axis index down to the lowest, for every input array and
every (abstract) reduction update function. -/
theorem create_multiaxis_reducer_descending :
    (∀ (f : Int → Int → Nat → Int) (id : Int) (d : DType) (axes : List Nat) (ndim : Nat),
      (∀ a ∈ axes, a < ndim) → axes.Nodup →
      ∃ g, create_multiaxis_reducer f id (axes.map Int.ofNat) ndim d = .ok g ∧
        (∀ t, g t = (sortDesc axes).foldl (fun u ax => reduceAxis f (castTo d id) ax u) t) ∧
        (sortDesc axes).Pairwise (· > ·)) ∧
    (∀ (f : Int → Int → Nat → Int) (id : Int) (d : DType) (n : Nat) (t : Tensor),
      ∃ g, create_multiaxis_reducer f id ((List.range n).map Int.ofNat) n d = .ok g ∧
        g t = ((List.range n).reverse).foldl (fun u ax => reduceAxis f (castTo d id) ax u) t) ∧
    (∀ (f : Int → Int → Nat → Int) (id : Int) (d : DType) (ax ndim : Nat), ax < ndim →
      ∃ h, create_axis_reducer f id (Int.ofNat ax) ndim d = .ok h ∧
        ∀ t, h t = reduceAxis f (castTo d id) ax t) := by
  have haxis : ∀ (f : Int → Int → Nat → Int) (id : Int) (d : DType) (ax ndim : Nat),
      ax < ndim →
      ∃ h, create_axis_reducer f id (Int.ofNat ax) ndim d = .ok h ∧
        ∀ t, h t = reduceAxis f (castTo d id) ax t := by
    intro f id d ax ndim h
    refine ⟨_, ?_, fun t => rfl⟩
    rw [create_axis_reducer, normalize_axis_index_ofNat h]
    rfl
  have hmain : ∀ (f : Int → Int → Nat → Int) (id : Int) (d : DType) (axes : List Nat)
      (ndim : Nat), (∀ a ∈ axes, a < ndim) → axes.Nodup →
      ∃ g, create_multiaxis_reducer f id (axes.map Int.ofNat) ndim d = .ok g ∧
        (∀ t, g t = (sortDesc axes).foldl (fun u ax => reduceAxis f (castTo d id) ax u) t) ∧
        (sortDesc axes).Pairwise (· > ·) := by
    intro f id d axes ndim hb hnd
    by_cases hlen : axes.length = 1
    · obtain ⟨a, rfl⟩ := List.length_eq_one.mp hlen
      obtain ⟨h, hok, hvals⟩ := haxis f id d a ndim (hb a (List.mem_cons_self a []))
      refine ⟨h, ?_, ?_, ?_⟩
      · rw [create_multiaxis_reducer, if_pos (by simp)]
        simpa using hok
      · intro t
        rw [hvals t]
        rfl
      · exact List.pairwise_singleton _ _
    · refine ⟨_, ?_, fun t => rfl, sortDesc_strict_of_nodup hnd⟩
      have h1 : normalize_axis_tuple (axes.map Int.ofNat) ndim = Except.ok axes := by
        rw [normalize_axis_tuple, normalizeAxisList_map_ofNat hb]
        show (if axes.Nodup then Except.ok axes else Except.error "repeated axis") =
          Except.ok axes
        rw [if_pos hnd]
      rw [create_multiaxis_reducer, if_neg (by simpa using hlen), h1]
      rfl
  refine ⟨hmain, ?_, haxis⟩
  intro f id d n t
  obtain ⟨g, hok, hfold, _⟩ := hmain f id d (List.range n) n
    (fun a ha => List.mem_range.mp ha) (List.nodup_range n)
  refine ⟨g, hok, ?_⟩
  rw [hfold t, sortDesc_range]

/-- Witness for C1 at a concrete instance: the axes `[0, 1]` of a rank-2
sum reducer. -/
theorem create_multiaxis_reducer_descending_witness :
    ∃ g, create_multiaxis_reducer addUpdate 0 ([0, 1].map Int.ofNat) 2 ⟨.i, 64⟩ = .ok g ∧
      (∀ t, g t = (sortDesc [0, 1]).foldl
        (fun u ax => reduceAxis addUpdate (castTo ⟨.i, 64⟩ 0) ax u) t) ∧
      (sortDesc [0, 1]).Pairwise (· > ·) :=
  create_multiaxis_reducer_descending.1 addUpdate 0 ⟨.i, 64⟩ [0, 1] 2 (by decide) (by decide)

lemma length_eq_of_nodup_cover {axes : List Nat} {ndim : Nat} (hnd : axes.Nodup)
    (hb : ∀ a ∈ axes, a < ndim) (hc : ∀ a, a < ndim → a ∈ axes) : axes.length = ndim := by
  have h1 : axes.toFinset = Finset.range ndim := by
    ext a
    simp only [List.mem_toFinset, Finset.mem_range]
    exact ⟨hb a, hc a⟩
  have h2 := List.toFinset_card_of_nodup hnd
  rw [h1, Finset.card_range] at h2
  omega

/-- C2: `numba_funcify_Sum` has two fast paths: when the reduced axes
cover every input axis (equivalently `None`), the kernel is a whole-array
sum cast to the accumulator dtype and then to the output dtype; when the
axis set is empty (for inputs of positive rank — rank-0 inputs with no
axes fall under the all-axes path, which the first clause covers), the
kernel is a dtype-cast copy.  Concretely, sum of `[[1,2,3],[4,5,6]]` over
axis 1 is `[6,15]`, over axis 0 is `[5,7,9]`, and over both axes is `21`. -/
theorem numba_funcify_Sum_fast_paths :
    (∀ (axes : List Nat) (ndim : Nat) (accD outD : DType) (t : Tensor),
      axes.Nodup → (∀ a ∈ axes, a < ndim) → (∀ a, a < ndim → a ∈ axes) →
      ∃ g, numba_funcify_Sum (some axes) ndim accD outD = .ok g ∧
        g t = scalarTensor (castTo outD (castTo accD (npSumAll t)))) ∧
    (∀ (ndim : Nat) (accD outD : DType) (t : Tensor),
      ∃ g, numba_funcify_Sum none ndim accD outD = .ok g ∧
        g t = scalarTensor (castTo outD (castTo accD (npSumAll t)))) ∧
    (∀ (ndim : Nat) (accD outD : DType) (t : Tensor), 0 < ndim →
      ∃ g, numba_funcify_Sum (some []) ndim accD outD = .ok g ∧ g t = castTensor outD t) ∧
    (∃ g, numba_funcify_Sum (some [1]) 2 ⟨.i, 64⟩ ⟨.i, 64⟩ = .ok g ∧
      g ⟨[2, 3], [1, 2, 3, 4, 5, 6]⟩ = ⟨[2], [6, 15]⟩) ∧
    (∃ g, numba_funcify_Sum (some [0]) 2 ⟨.i, 64⟩ ⟨.i, 64⟩ = .ok g ∧
      g ⟨[2, 3], [1, 2, 3, 4, 5, 6]⟩ = ⟨[3], [5, 7, 9]⟩) ∧
    (∃ g, numba_funcify_Sum (some [0, 1]) 2 ⟨.i, 64⟩ ⟨.i, 64⟩ = .ok g ∧
      g ⟨[2, 3], [1, 2, 3, 4, 5, 6]⟩ = ⟨[], [21]⟩) := by
  refine ⟨?_, ?_, ?_, ⟨_, rfl, by decide⟩, ⟨_, rfl, by decide⟩, ⟨_, rfl, by decide⟩⟩
  · intro axes ndim accD outD t hnd hb hc
    have hlen : axes.length = ndim := length_eq_of_nodup_cover hnd hb hc
    have hok : numba_funcify_Sum (some axes) ndim accD outD =
        .ok (fun t => scalarTensor (castTo outD (castTo accD (npSumAll t)))) := by
      rw [numba_funcify_Sum]
      simp only [Option.getD_some]
      rw [if_pos hlen.symm]
    exact ⟨_, hok, rfl⟩
  · intro ndim accD outD t
    have hok : numba_funcify_Sum none ndim accD outD =
        .ok (fun t => scalarTensor (castTo outD (castTo accD (npSumAll t)))) := by
      rw [numba_funcify_Sum]
      simp only [Option.getD_none]
      rw [if_pos (List.length_range ndim).symm]
    exact ⟨_, hok, rfl⟩
  · intro ndim accD outD t hpos
    have hok : numba_funcify_Sum (some []) ndim accD outD =
        .ok (fun t => castTensor outD t) := by
      rw [numba_funcify_Sum]
      simp only [Option.getD_some, List.length_nil]
      rw [if_neg (by omega), if_pos (by trivial)]
    exact ⟨_, hok, rfl⟩

/-- Witness for C2: the all-axes clause at axes `[0, 1]`, rank 2, on
`[[1,2,3],[4,5,6]]`. -/
theorem numba_funcify_Sum_fast_paths_witness :
    ∃ g, numba_funcify_Sum (some [0, 1]) 2 ⟨.i, 64⟩ ⟨.i, 64⟩ = .ok g ∧
      g ⟨[2, 3], [1, 2, 3, 4, 5, 6]⟩ =
        scalarTensor (castTo ⟨.i, 64⟩ (castTo ⟨.i, 64⟩ (npSumAll ⟨[2, 3], [1, 2, 3, 4, 5, 6]⟩))) :=
  numba_funcify_Sum_fast_paths.1 [0, 1] 2 ⟨.i, 64⟩ ⟨.i, 64⟩ ⟨[2, 3], [1, 2, 3, 4, 5, 6]⟩
    (by decide) (by decide) (by decide)

/-- C3: `scalar_in_place_fn` returns exactly the in-place statement the
spec lists for each registered operator kind; the running-mean statement
reads the enclosing loop counter `i`, and the multiply-skip-zero
statement treats a zero on either side as a no-op sentinel (the other
operand survives) rather than an annihilator. -/
theorem scalar_in_place_fn_statements :
    scalar_in_place_fn .add "idx" "res" "arr" = "res[idx] += arr" ∧
    scalar_in_place_fn .sub "idx" "res" "arr" = "res[idx] -= arr" ∧
    scalar_in_place_fn .mean "idx" "res" "arr" = "res[idx] += (arr - res[idx]) / (i + 1)" ∧
    scalar_in_place_fn .mul "idx" "res" "arr" = "res[idx] *= arr" ∧
    scalar_in_place_fn .mulWithoutZeros "idx" "res" "arr" =
      "res[idx] = arr if res[idx] == 0 else (res[idx] if arr == 0 else res[idx] * arr)" ∧
    scalar_in_place_fn .and "idx" "res" "arr" = "res[idx] &= arr" ∧
    scalar_in_place_fn .or "idx" "res" "arr" = "res[idx] |= arr" ∧
    scalar_in_place_fn .xor "idx" "res" "arr" = "res[idx] ^= arr" ∧
    scalar_in_place_fn .trueDiv "idx" "res" "arr" = "res[idx] /= arr" ∧
    scalar_in_place_fn .intDiv "idx" "res" "arr" = "res[idx] //= arr" ∧
    scalar_in_place_fn .max "idx" "res" "arr" = "\nif res[idx] < arr:\n    res[idx] = arr\n" ∧
    scalar_in_place_fn .min "idx" "res" "arr" = "\nif res[idx] > arr:\n    res[idx] = arr\n" ∧
    (∀ a : Int, mulWithoutZerosUpdate 0 a 0 = a) ∧
    (∀ r : Int, mulWithoutZerosUpdate r 0 0 = r) ∧
    (∀ r a : Int, r ≠ 0 → a ≠ 0 → mulWithoutZerosUpdate r a 0 = r * a) := by
  refine ⟨rfl, rfl, rfl, rfl, rfl, rfl, rfl, rfl, rfl, rfl, rfl, rfl, ?_, ?_, ?_⟩
  · intro a
    simp [mulWithoutZerosUpdate]
  · intro r
    by_cases h : r = 0 <;> simp [mulWithoutZerosUpdate, h]
  · intro r a hr ha
    simp [mulWithoutZerosUpdate, hr, ha]

/-- Witness for C3: the multiply-skip-zero semantics on nonzero operands. -/
theorem scalar_in_place_fn_statements_witness : mulWithoutZerosUpdate 2 3 0 = 2 * 3 := by
  have h := scalar_in_place_fn_statements
  exact h.2.2.2.2.2.2.2.2.2.2.2.2.2.2 2 3 (by decide) (by decide)

/-- C4 counterexample: `uint8` is an integer dtype, yet an infinite
identity is NOT clamped for it — the clamp tests `kind == "i"` (signed
only), so for an unsigned accumulator dtype `-inf` stays `-inf` instead
of becoming the dtype minimum. -/
theorem clampIdentity_unsigned_counterexample :
    clampIdentity ⟨.u, 8⟩ .negInf = .negInf ∧
    clampIdentity ⟨.u, 8⟩ .negInf ≠ .fin (iinfoMin ⟨.u, 8⟩) := by
  decide

/-- C4 (amended): the identity clamp applies exactly to SIGNED integer
accumulator dtypes (numpy kind `i`): `+inf` becomes the dtype maximum and
`-inf` (and `nan`) the dtype minimum; unsigned-integer and float
accumulator dtypes leave the identity unchanged (for an unsigned integer
dtype the later `np.array(identity, dtype)` conversion then fails).  The
clamped identity is what initializes the result buffer: a max-reduce
(identity `-inf`) over an empty `int8` axis returns `-128`. -/
theorem clampIdentity_signed_clamp :
    (∀ d : DType, d.kind = .i →
      clampIdentity d .posInf = .fin (iinfoMax d) ∧
      clampIdentity d .negInf = .fin (iinfoMin d) ∧
      clampIdentity d .nan = .fin (iinfoMin d)) ∧
    (∀ (d : DType) (id : IdVal), d.kind = .u → clampIdentity d id = id) ∧
    (∀ (d : DType) (id : IdVal), d.kind = .f → clampIdentity d id = id) ∧
    (∀ (d : DType) (v : Int), clampIdentity d (.fin v) = .fin v) ∧
    (∃ g, numba_funcify_CAReduce maxUpdate .negInf (some [0]) 1 ⟨.i, 8⟩ ⟨.i, 8⟩ = .ok g ∧
      g ⟨[0], []⟩ = ⟨[], [-128]⟩) ∧
    numba_funcify_CAReduce maxUpdate .negInf (some [0]) 1 ⟨.u, 8⟩ ⟨.u, 8⟩ =
      .error "cannot convert float infinity to integer" := by
  refine ⟨?_, ?_, ?_, ?_, ⟨_, rfl, by decide⟩, rfl⟩
  · intro d hd
    refine ⟨?_, ?_, ?_⟩ <;> simp [clampIdentity, hd, idIsFinite]
  · intro d id hd
    have : ¬(d.kind = .i ∧ idIsFinite id = false) := by
      rw [hd]
      simp
    simp [clampIdentity, this]
  · intro d id hd
    have : ¬(d.kind = .i ∧ idIsFinite id = false) := by
      rw [hd]
      simp
    simp [clampIdentity, this]
  · intro d v
    simp [clampIdentity, idIsFinite]

/-- Witness for C4 at `int8`: both infinities are clamped to the `int8`
extremes. -/
theorem clampIdentity_signed_clamp_witness :
    clampIdentity ⟨.i, 8⟩ .posInf = .fin (iinfoMax ⟨.i, 8⟩) ∧
    clampIdentity ⟨.i, 8⟩ .negInf = .fin (iinfoMin ⟨.i, 8⟩) ∧
    clampIdentity ⟨.i, 8⟩ .nan = .fin (iinfoMin ⟨.i, 8⟩) :=
  clampIdentity_signed_clamp.1 ⟨.i, 8⟩ rfl

lemma normalize_axis_index_inRange {a : Int} {ndim : Nat} (h1 : -(ndim : Int) ≤ a)
    (h2 : a < ndim) : normalize_axis_index a ndim = .ok (resolveAxis ndim a) := by
  rw [normalize_axis_index, if_neg (by omega), resolveAxis]
  by_cases h : a < 0
  · rw [if_pos h, if_pos h]
  · rw [if_neg h, if_neg h]

lemma normalizeAxisList_inRange {axes : List Int} {ndim : Nat}
    (h : ∀ a ∈ axes, -(ndim : Int) ≤ a ∧ a < ndim) :
    normalizeAxisList axes ndim = .ok (axes.map (resolveAxis ndim)) := by
  induction axes with
  | nil => rfl
  | cons a rest ih =>
    obtain ⟨ha1, ha2⟩ := h a (List.mem_cons_self a rest)
    rw [normalizeAxisList, normalize_axis_index_inRange ha1 ha2,
      ih (fun b hb => h b (List.mem_cons_of_mem a hb))]
    rfl

/-- C9 counterexample: duplicate axes are NOT deduplicated — the tuple
normalization raises `ValueError("repeated axis")`, so
`create_multiaxis_reducer` on axes `(0, 0)` fails instead of building a
single-axis reducer. -/
theorem create_multiaxis_reducer_duplicate_counterexample :
    create_multiaxis_reducer addUpdate 0 [0, 0] 2 ⟨.i, 64⟩ = .error "repeated axis" := rfl

/-- C9 (amended): the axis set is normalized before any loop source is
emitted — negative axes are resolved against the rank, an out-of-range
axis raises a value error during normalization (both in the multi-axis
path and in the delegated single-axis path), and duplicate axes raise
`ValueError("repeated axis")` rather than being deduplicated; an exactly
one-element axis list delegates directly to the single-axis reducer
builder (before any tuple normalization). -/
theorem create_multiaxis_reducer_normalization :
    (∀ (f : Int → Int → Nat → Int) (id : Int) (d : DType) (axes : List Int) (ndim : Nat),
      axes.length ≠ 1 → (∃ a ∈ axes, a < -(ndim : Int) ∨ (ndim : Int) ≤ a) →
      create_multiaxis_reducer f id axes ndim d = .error "axis is out of bounds for array") ∧
    (∀ (f : Int → Int → Nat → Int) (id : Int) (d : DType) (a : Int) (ndim : Nat),
      (a < -(ndim : Int) ∨ (ndim : Int) ≤ a) →
      create_multiaxis_reducer f id [a] ndim d = .error "axis is out of bounds for array") ∧
    (∀ (f : Int → Int → Nat → Int) (id : Int) (d : DType) (axes : List Int) (ndim : Nat),
      axes.length ≠ 1 → (∀ a ∈ axes, -(ndim : Int) ≤ a ∧ a < ndim) →
      ¬(axes.map (resolveAxis ndim)).Nodup →
      create_multiaxis_reducer f id axes ndim d = .error "repeated axis") ∧
    (∀ (a : Int) (ndim : Nat), -(ndim : Int) ≤ a → a < 0 →
      normalize_axis_index a ndim = .ok (a + ndim).toNat) ∧
    (∀ (f : Int → Int → Nat → Int) (id : Int) (d : DType) (a : Int) (ndim : Nat),
      create_multiaxis_reducer f id [a] ndim d = create_axis_reducer f id a ndim d) := by
  refine ⟨?_, ?_, ?_, ?_, ?_⟩
  · intro f id d axes ndim hlen hex
    have h1 : normalize_axis_tuple axes ndim = .error "axis is out of bounds for array" := by
      rw [normalize_axis_tuple, normalizeAxisList_error hex]
      rfl
    rw [create_multiaxis_reducer, if_neg hlen, h1]
    rfl
  · intro f id d a ndim ha
    rw [create_multiaxis_reducer, if_pos (show ([a] : List Int).length = 1 from rfl)]
    show create_axis_reducer f id a ndim d = _
    rw [create_axis_reducer, normalize_axis_index, if_pos ha]
    rfl
  · intro f id d axes ndim hlen hin hnd
    have h1 : normalize_axis_tuple axes ndim = .error "repeated axis" := by
      rw [normalize_axis_tuple, normalizeAxisList_inRange hin]
      show (if (axes.map (resolveAxis ndim)).Nodup
          then Except.ok (axes.map (resolveAxis ndim))
          else Except.error "repeated axis") = Except.error "repeated axis"
      rw [if_neg hnd]
    rw [create_multiaxis_reducer, if_neg hlen, h1]
    rfl
  · intro a ndim h1 h2
    rw [normalize_axis_index, if_neg (by omega), if_pos h2]
  · intro f id d a ndim
    rw [create_multiaxis_reducer, if_pos (show ([a] : List Int).length = 1 from rfl)]
    rfl

/-- Witness for C9: an out-of-range axis pair and a duplicate axis pair
both fail during normalization. -/
theorem create_multiaxis_reducer_normalization_witness :
    create_multiaxis_reducer addUpdate 0 [0, 3] 2 ⟨.i, 64⟩ =
      .error "axis is out of bounds for array" ∧
    create_multiaxis_reducer addUpdate 0 [1, 1] 2 ⟨.i, 64⟩ = .error "repeated axis" :=
  ⟨create_multiaxis_reducer_normalization.1 addUpdate 0 ⟨.i, 64⟩ [0, 3] 2 (by decide)
      ⟨3, by decide, by decide⟩,
    create_multiaxis_reducer_normalization.2.2.1 addUpdate 0 ⟨.i, 64⟩ [1, 1] 2 (by decide)
      (by decide) (by decide)⟩

lemma eq_singleton_of_nodup_all_eq {α : Type} {l : List α} {d : α} (hnd : l.Nodup)
    (hne : l ≠ []) (h : ∀ x ∈ l, x = d) : l = [d] := by
  match l, hne with
  | a :: rest, _ =>
    have ha : a = d := h a (List.mem_cons_self a rest)
    subst ha
    cases rest with
    | nil => rfl
    | cons b r =>
      exfalso
      have hb : b = a := (h b (by simp)).trans (h a (by simp)).symm
      rcases List.nodup_cons.mp hnd with ⟨hna, _⟩
      exact hna (by simp [← hb])

lemma two_le_length_of_two_mem {α : Type} {l : List α} {a b : α} (ha : a ∈ l) (hb : b ∈ l)
    (hab : a ≠ b) : 2 ≤ l.length := by
  match l with
  | [] => simp at ha
  | [x] =>
    rw [List.mem_singleton] at ha hb
    exact absurd (ha.trans hb.symm) hab
  | _ :: _ :: _ => simp

lemma mem_of_pair {α : Type} {l : List α} {a b : α} (hnd : l.Nodup) (hlen : l.length = 2)
    (ha : a ∈ l) (hb : b ∈ l) (hab : a ≠ b) : ∀ x ∈ l, x = a ∨ x = b := by
  match l, hlen with
  | [x, y], _ =>
    have hxy : x ≠ y := by
      rcases List.nodup_cons.mp hnd with ⟨hna, _⟩
      intro h
      exact hna (by simp [h])
    intro z hz
    rw [List.mem_pair] at ha hb hz
    rcases ha with rfl | rfl <;> rcases hb with rfl | rfl <;> rcases hz with rfl | rfl <;> tauto

/-- C10 counterexample: on the dim lengths `[0, 1]` the function returns
`0` — which is not a "length greater than 1" — rather than raising or
returning a length greater than 1. -/
theorem broadcast_static_dim_lengths_counterexample :
    broadcast_static_dim_lengths [some 0, some 1] = .ok (some 0) ∧ ¬(1 : Nat) < 0 := by
  refine ⟨by decide, by omega⟩

/-- C10 (amended): `broadcast_static_dim_lengths` returns the common
entry when all entries are equal; returns `None` when the distinct
entries are exactly `None` and `1`; raises `ValueError` when two distinct
lengths both different from `1` are present; and otherwise returns the
unique remaining length after discarding `None` and `1` — which may be
`0`, not necessarily a length greater than 1. -/
theorem broadcast_static_dim_lengths_cases :
    (∀ (dims : List (Option Nat)) (v : Option Nat), dims ≠ [] → (∀ x ∈ dims, x = v) →
      broadcast_static_dim_lengths dims = .ok v) ∧
    (∀ dims : List (Option Nat), none ∈ dims → some 1 ∈ dims →
      (∀ x ∈ dims, x = none ∨ x = some 1) →
      broadcast_static_dim_lengths dims = .ok none) ∧
    (∀ (dims : List (Option Nat)) (va vb : Nat), some va ∈ dims → some vb ∈ dims →
      va ≠ vb → va ≠ 1 → vb ≠ 1 →
      broadcast_static_dim_lengths dims = .error "ValueError") ∧
    (∀ (dims : List (Option Nat)) (v : Nat), some v ∈ dims → v ≠ 1 →
      (∀ x ∈ dims, x = some 1 ∨ x = none ∨ x = some v) →
      broadcast_static_dim_lengths dims = .ok (some v)) := by
  refine ⟨?_, ?_, ?_, ?_⟩
  · intro dims v hne hall
    have hs : dims.dedup = [v] :=
      eq_singleton_of_nodup_all_eq (List.nodup_dedup dims)
        (fun h => hne ((List.dedup_eq_nil dims).mp h))
        (fun x hx => hall x (List.mem_dedup.mp hx))
    rw [broadcast_static_dim_lengths, hs]
    rfl
  · intro dims h0 h1 hall
    have hn : none ∈ dims.dedup := List.mem_dedup.mpr h0
    have h1' : some 1 ∈ dims.dedup := List.mem_dedup.mpr h1
    have hge : 2 ≤ dims.dedup.length := two_le_length_of_two_mem hn h1' (by simp)
    have hle : dims.dedup.length ≤ 2 := by
      have hsub : dims.dedup.toFinset ⊆ ({none, some 1} : Finset (Option Nat)) := by
        intro x hx
        rcases hall x (List.mem_dedup.mp (List.mem_toFinset.mp hx)) with rfl | rfl <;> simp
      have hcard := Finset.card_le_card hsub
      rw [List.toFinset_card_of_nodup (List.nodup_dedup dims)] at hcard
      simpa using hcard
    have hlen : dims.dedup.length = 2 := by omega
    rw [broadcast_static_dim_lengths]
    rw [if_neg (by omega), if_pos ⟨hlen, hn, h1'⟩]
  · intro dims va vb ha hb hab ha1 hb1
    have ha' : some va ∈ dims.dedup := List.mem_dedup.mpr ha
    have hb' : some vb ∈ dims.dedup := List.mem_dedup.mpr hb
    have hge : 2 ≤ dims.dedup.length :=
      two_le_length_of_two_mem ha' hb' (by simpa using hab)
    rw [broadcast_static_dim_lengths]
    rw [if_neg (by omega)]
    have hcond : ¬(dims.dedup.length = 2 ∧ none ∈ dims.dedup ∧ some 1 ∈ dims.dedup) := by
      rintro ⟨hlen, hn, h1'⟩
      rcases mem_of_pair (List.nodup_dedup dims) hlen hn h1' (by simp) (some va) ha'
        with h | h
      · exact (Option.some_ne_none va) h
      · exact ha1 (by simpa using h)
    rw [if_neg hcond]
    have hva2 : some va ∈ (dims.dedup.filter (fun x => x ≠ some 1)).filter (fun x => x ≠ none) := by
      rw [List.mem_filter, List.mem_filter]
      refine ⟨⟨ha', ?_⟩, ?_⟩ <;> simp [ha1]
    have hvb2 : some vb ∈ (dims.dedup.filter (fun x => x ≠ some 1)).filter (fun x => x ≠ none) := by
      rw [List.mem_filter, List.mem_filter]
      refine ⟨⟨hb', ?_⟩, ?_⟩ <;> simp [hb1]
    have hge2 : 2 ≤ ((dims.dedup.filter (fun x => x ≠ some 1)).filter
        (fun x => x ≠ none)).length :=
      two_le_length_of_two_mem hva2 hvb2 (by simpa using hab)
    rw [if_pos (by omega)]
  · intro dims v hv hv1 hall
    have hv' : some v ∈ dims.dedup := List.mem_dedup.mpr hv
    by_cases hlen1 : dims.dedup.length = 1
    · obtain ⟨x, hx⟩ := List.length_eq_one.mp hlen1
      have : x = some v := by
        rw [hx, List.mem_singleton] at hv'
        exact hv'.symm
      subst this
      rw [broadcast_static_dim_lengths, hx]
      rfl
    · rw [broadcast_static_dim_lengths, if_neg hlen1]
      have hcond : ¬(dims.dedup.length = 2 ∧ none ∈ dims.dedup ∧ some 1 ∈ dims.dedup) := by
        rintro ⟨hlen, hn, h1'⟩
        rcases mem_of_pair (List.nodup_dedup dims) hlen hn h1' (by simp) (some v) hv'
          with h | h
        · exact (Option.some_ne_none v) h
        · exact hv1 (by simpa using h)
      rw [if_neg hcond]
      have hs2 : (dims.dedup.filter (fun x => x ≠ some 1)).filter (fun x => x ≠ none) =
          [some v] := by
        apply eq_singleton_of_nodup_all_eq
        · exact ((List.nodup_dedup dims).filter _).filter _
        · intro hemp
          have : some v ∈ (dims.dedup.filter (fun x => x ≠ some 1)).filter
              (fun x => x ≠ none) := by
            rw [List.mem_filter, List.mem_filter]
            refine ⟨⟨hv', ?_⟩, ?_⟩ <;> simp [hv1]
          rw [hemp] at this
          simp at this
        · intro x hx
          rw [List.mem_filter, List.mem_filter] at hx
          obtain ⟨⟨hxs, hx1⟩, hxn⟩ := hx
          rcases hall x (List.mem_dedup.mp hxs) with rfl | rfl | rfl
          · simp at hx1
          · simp at hxn
          · rfl
      rw [hs2]
      rfl

/-- Witness for C10: all-equal entries, the indeterminate `None`-and-1
case, the two-incompatible-lengths case, and the unique-length case. -/
theorem broadcast_static_dim_lengths_cases_witness :
    broadcast_static_dim_lengths [some 3, some 3] = .ok (some 3) ∧
    broadcast_static_dim_lengths [none, some 1] = .ok none ∧
    broadcast_static_dim_lengths [some 2, some 3] = .error "ValueError" ∧
    broadcast_static_dim_lengths [none, some 1, some 5] = .ok (some 5) :=
  ⟨broadcast_static_dim_lengths_cases.1 [some 3, some 3] (some 3) (by decide) (by decide),
    broadcast_static_dim_lengths_cases.2.1 [none, some 1] (by decide) (by decide) (by decide),
    broadcast_static_dim_lengths_cases.2.2.1 [some 2, some 3] 2 3 (by decide) (by decide)
      (by decide) (by decide) (by decide),
    broadcast_static_dim_lengths_cases.2.2.2 [none, some 1, some 5] 5 (by decide) (by decide)
      (by decide)⟩

lemma checkBroadcast_error {shape : List Nat} {pairs : List (Tensor × List Bool)}
    (h : ∃ p ∈ pairs, ∃ k, k < p.1.shape.length ∧ k < p.2.length ∧ k < shape.length ∧
      p.1.shape.getD k 0 = 1 ∧ shape ≠ [] ∧ shape.getD k 0 ≠ 1 ∧ p.2.getD k false = false) :
    checkBroadcast shape pairs = .error "Broadcast not allowed." := by
  induction pairs with
  | nil => simp at h
  | cons q rest ih =>
    rw [checkBroadcast]
    by_cases hq : ((q.1.shape.zip q.2).zip shape).any (fun w =>
        w.1.1 == 1 && !shape.isEmpty && w.2 != 1 && !w.1.2) = true
    · rw [if_pos hq]
    · rw [if_neg hq]
      obtain ⟨p, hp, k, h1, h2, h3, h4, h5, h6, h7⟩ := h
      rcases List.mem_cons.mp hp with rfl | hmem
      · exfalso
        apply hq
        rw [List.any_eq_true]
        have hzlen : ((p.1.shape.zip p.2).zip shape).length =
            Nat.min (Nat.min p.1.shape.length p.2.length) shape.length := by
          simp [List.length_zip]
        have hk : k < ((p.1.shape.zip p.2).zip shape).length := by
          rw [hzlen]
          exact lt_min (lt_min h1 h2) h3
        refine ⟨((p.1.shape.zip p.2).zip shape)[k], List.getElem_mem hk, ?_⟩
        have hk2 : k < (p.1.shape.zip p.2).length := by
          rw [List.length_zip]
          omega
        rw [List.getElem_zip, List.getElem_zip]
        rw [List.getD_eq_getElem _ _ h1] at h4
        rw [List.getD_eq_getElem _ _ h3] at h6
        rw [List.getD_eq_getElem _ _ h2] at h7
        simp only [h4, h7, Bool.not_false, Bool.and_true]
        have hne : shape.isEmpty = false := by
          cases shape with
          | nil => exact absurd rfl h5
          | cons a l => rfl
        have hbne : (shape[k] != 1) = true := by
          simpa using h6
        simp [hne, hbne]
      · exact ih ⟨p, hmem, k, h1, h2, h3, h4, h5, h6, h7⟩

/-- C5 counterexample: elementwise add of a `(3,1)` FIRST input whose
second axis is non-broadcastable with a `(3,4)` second input does NOT
raise — the scan compares against the first input's own shape `(3,1)`
(where that axis length is 1), so the kernel computes a `(3,1)` output. -/
theorem elemwise_broadcast_violation_counterexample :
    elemwise addScalarFn [[false, false], [false, false]] [[false, false]] [⟨.i, 64⟩]
      [⟨[3, 1], [1, 2, 3]⟩, ⟨[3, 4], [0, 1, 2, 3, 4, 5, 6, 7, 8, 9, 10, 11]⟩] =
      .ok [⟨[3, 1], [1, 6, 11]⟩] := by
  decide

/-- C5 (amended): the reference `elemwise` raises the broadcast-violation
error before computing any output exactly when some input has an axis of
length 1 that is not flagged broadcastable while the FIRST input's length
for that axis (the scan's reference shape is `inputs[0].shape`, not the
common broadcast shape) differs from 1; in particular add of `(3,4)`
first with a non-broadcastable `(3,1)` second input raises, for every
choice of data. -/
theorem elemwise_broadcast_violation_first_shape :
    (∀ (shape : List Nat) (pairs : List (Tensor × List Bool)),
      (∃ p ∈ pairs, ∃ k, k < p.1.shape.length ∧ k < p.2.length ∧ k < shape.length ∧
        p.1.shape.getD k 0 = 1 ∧ shape ≠ [] ∧ shape.getD k 0 ≠ 1 ∧
        p.2.getD k false = false) →
      checkBroadcast shape pairs = .error "Broadcast not allowed.") ∧
    (∀ d1 d0 : List Int,
      elemwise addScalarFn [[false, false], [false, false]] [[false, false]] [⟨.i, 64⟩]
        [⟨[3, 4], d1⟩, ⟨[3, 1], d0⟩] = .error "Broadcast not allowed.") := by
  refine ⟨fun shape pairs h => checkBroadcast_error h, fun d1 d0 => rfl⟩

/-- Witness for C5: the scan raises on a non-broadcastable length-1 axis
when the first input's axis length is 4. -/
theorem elemwise_broadcast_violation_first_shape_witness :
    checkBroadcast [3, 4] [(⟨[3, 1], [1, 2, 3]⟩, [false, false])] =
      .error "Broadcast not allowed." :=
  elemwise_broadcast_violation_first_shape.1 [3, 4] [(⟨[3, 1], [1, 2, 3]⟩, [false, false])]
    ⟨(⟨[3, 1], [1, 2, 3]⟩, [false, false]), by decide, 1, by decide, by decide, by decide,
      by decide, by decide, by decide, by decide⟩

/-- C6 counterexample: a two-output elementwise node is NOT rejected —
`numba_funcify_Elemwise` contains no output-arity check, and the kernel
it builds computes and returns both outputs. -/
theorem numba_funcify_Elemwise_multi_output_counterexample :
    numba_funcify_Elemwise addMulScalarFn [[false], [false]] [[false], [false]]
      [⟨.i, 64⟩, ⟨.i, 64⟩] [⟨[2], [3, 4]⟩, ⟨[2], [10, 20]⟩] =
      .ok [⟨[2], [13, 24]⟩, ⟨[2], [30, 80]⟩] := by
  decide

/-- C6 (amended): the multi-output rejection lives in
`create_vectorize_func`, which raises `NotImplementedError` for nodes
with more than one output before constructing anything and builds the
vectorized kernel for single-output nodes; `numba_funcify_Elemwise`
itself performs no such check — it unconditionally returns the
elementwise kernel (whose reference path handles any number of
outputs). -/
theorem create_vectorize_func_multi_output_guard :
    (∀ (sf : List Int → Int) (n : Nat), 1 < n →
      create_vectorize_func sf n =
        .error "Multi-output Elemwise Ops are not supported by the Numba backend") ∧
    (∀ (sf : List Int → Int) (n : Nat), n ≤ 1 →
      ∃ k, create_vectorize_func sf n = .ok k) ∧
    (∀ (sf : List Int → List Int) (ibc obc : List (List Bool)) (od : List DType)
      (inputs : List Tensor),
      numba_funcify_Elemwise sf ibc obc od inputs = elemwise sf ibc obc od inputs) := by
  refine ⟨?_, ?_, fun sf ibc obc od inputs => rfl⟩
  · intro sf n hn
    rw [create_vectorize_func, if_pos hn]
  · intro sf n hn
    exact ⟨_, by rw [create_vectorize_func, if_neg (by omega)]⟩

/-- Witness for C6: the guard fires at two outputs and passes at one. -/
theorem create_vectorize_func_multi_output_guard_witness :
    create_vectorize_func (fun vals => vals.getD 0 0) 2 =
      .error "Multi-output Elemwise Ops are not supported by the Numba backend" ∧
    ∃ k, create_vectorize_func (fun vals => vals.getD 0 0) 1 = .ok k :=
  ⟨create_vectorize_func_multi_output_guard.1 (fun vals => vals.getD 0 0) 2 (by omega),
    create_vectorize_func_multi_output_guard.2.1 (fun vals => vals.getD 0 0) 1 (by omega)⟩

lemma findShapeLoop_nil_augment (s : List Nat) :
    ∀ (is : List Nat) (j : Nat),
      findShapeLoop [] s is j = (List.range is.length).map (fun k => s.getD (j + k) 0) := by
  intro is
  induction is with
  | nil => intro j; rfl
  | cons i rest ih =>
    intro j
    rw [findShapeLoop]
    simp only [List.not_mem_nil, if_false]
    rw [ih (j + 1), List.length_cons, List.range_succ_eq_map, List.map_cons, List.map_map]
    congr 1
    apply List.map_congr_left
    intro k _
    simp only [Function.comp]
    congr 1
    omega

lemma zip_self_all_beq (l : List Nat) : (l.zip l).all (fun q => q.1 == q.2) = true := by
  induction l with
  | nil => rfl
  | cons a rest ih => simpa using ih

lemma noTranspose_range (n : Nat) : noTranspose (List.range n) = true := by
  rw [noTranspose, List.length_range]
  exact zip_self_all_beq (List.range n)

/-- C7: `DimShuffle` with the identity permutation and no augmented axes
returns the (contiguity-normalized) input unchanged for every input
array, and the `(2,3) → (3,2)` transposing DimShuffle composed with the
`(3,2) → (2,3)` one round-trips every `(2,3)` array exactly. -/
theorem numba_funcify_DimShuffle_identity_and_roundtrip :
    (∀ (n : Nat) (t : Tensor), t.shape.length = n →
      numba_funcify_DimShuffle ⟨List.range n, List.range n, [], false, none⟩ t = t) ∧
    (∀ a b c d e f : Int,
      numba_funcify_DimShuffle ⟨[1, 0], [1, 0], [], false, none⟩
        (numba_funcify_DimShuffle ⟨[1, 0], [1, 0], [], false, none⟩
          ⟨[2, 3], [a, b, c, d, e, f]⟩) = ⟨[2, 3], [a, b, c, d, e, f]⟩) := by
  constructor
  · intro n t hlen
    cases n with
    | zero =>
      have hsh : t.shape = [] := List.length_eq_zero.mp hlen
      rw [numba_funcify_DimShuffle]
      simp only [List.length_range, List.length_nil, Nat.add_zero]
      rw [if_neg (by omega)]
      rw [reshape, ← hsh]
    | succ m =>
      rw [numba_funcify_DimShuffle]
      simp only [List.length_range, List.length_nil, Nat.add_zero]
      rw [if_pos (by omega)]
      simp only [noTranspose_range, if_pos]
      have htake : t.shape.take (m + 1) = t.shape := by
        rw [← hlen]
        exact List.take_length t.shape
      rw [htake]
      have hfs : find_shape ⟨List.range (m + 1), List.range (m + 1), [], false, none⟩
          t.shape = t.shape := by
        rw [find_shape]
        simp only [List.length_range, List.length_nil, Nat.add_zero]
        rw [if_pos (by omega)]
        rw [findShapeLoop_nil_augment t.shape (List.range (m + 1)) 0, List.length_range]
        have : ∀ k ∈ List.range (m + 1), t.shape.getD (0 + k) 0 = t.shape.getD k 0 := by
          intro k _
          rw [Nat.zero_add]
        rw [List.map_congr_left this, ← hlen, map_getD_range_self]
      rw [hfs, reshape]
  · intro a b c d e f
    rfl

/-- Witness for C7: the identity DimShuffle on the `(2,3)` array
`[[1,2,3],[4,5,6]]`. -/
theorem numba_funcify_DimShuffle_identity_witness :
    numba_funcify_DimShuffle ⟨List.range 2, List.range 2, [], false, none⟩
      ⟨[2, 3], [1, 2, 3, 4, 5, 6]⟩ = ⟨[2, 3], [1, 2, 3, 4, 5, 6]⟩ :=
  numba_funcify_DimShuffle_identity_and_roundtrip.1 2 ⟨[2, 3], [1, 2, 3, 4, 5, 6]⟩ (by decide)

lemma keepAxes_length_add {axes : List Nat} {ndim : Nat} (hnd : axes.Nodup)
    (hb : ∀ a ∈ axes, a < ndim) :
    (keep_axes axes ndim).length + axes.length = ndim := by
  have hsplit := List.length_eq_length_filter_add (l := List.range ndim)
    (fun i => decide (i ∈ axes))
  have hconv : (List.range ndim).filter (fun i => !decide (i ∈ axes)) = keep_axes axes ndim := by
    rw [keep_axes]
    apply List.filter_congr
    intro x _
    simp [decide_not]
  have hmemlen : ((List.range ndim).filter (fun i => decide (i ∈ axes))).length =
      axes.length := by
    have hnd1 : ((List.range ndim).filter (fun i => decide (i ∈ axes))).Nodup :=
      (List.filter_sublist _).nodup (List.nodup_range ndim)
    have hset : ((List.range ndim).filter (fun i => decide (i ∈ axes))).toFinset =
        axes.toFinset := by
      ext x
      simp only [List.mem_toFinset, List.mem_filter, List.mem_range, decide_eq_true_eq]
      exact ⟨fun h => h.2, fun h => ⟨hb x h, h⟩⟩
    have hcard := List.toFinset_card_of_nodup hnd1
    rw [hset, List.toFinset_card_of_nodup hnd] at hcard
    omega
  rw [List.length_range, hconv] at hsplit
  omega

lemma flatIndex_singleton (d j : Nat) : flatIndex [d] [j] = j := by
  simp [flatIndex]

lemma range_map_getD {α β : Type} (L : List α) (d : α) (h : α → β) :
    (List.range L.length).map (fun j => h (L.getD j d)) = L.map h := by
  conv_rhs => rw [← map_getD_range_self L d]
  rw [List.map_map]
  rfl

lemma filter_ne_last (k : Nat) :
    (List.range (k + 1)).filter (fun i => i ≠ k) ++ [k] = List.range (k + 1) := by
  rw [List.range_succ, List.filter_append]
  have h1 : (List.range k).filter (fun i => i ≠ k) = List.range k := by
    apply List.filter_eq_self.mpr
    intro a ha
    simpa using Nat.ne_of_lt (List.mem_range.mp ha)
  have h2 : ([k] : List Nat).filter (fun i => i ≠ k) = [] := by
    simp
  rw [h1, h2, List.append_nil]

lemma permuteIdx_merge {axes m r : List Nat} {ndim : Nat} (hnd : axes.Nodup)
    (hb : ∀ a ∈ axes, a < ndim) (hm : m.length = (keep_axes axes ndim).length) :
    permuteIdx (keep_axes axes ndim ++ axes) (m ++ r) =
      mergeIdx (keep_axes axes ndim) axes ndim m r := by
  have hlen : (keep_axes axes ndim ++ axes).length = ndim := by
    rw [List.length_append]
    exact keepAxes_length_add hnd hb
  rw [permuteIdx, mergeIdx, hlen]
  apply List.map_congr_left
  intro a ha
  by_cases hax : a ∈ axes
  · rw [if_pos hax]
    have hnotkeep : ∀ x ∈ keep_axes axes ndim, ((fun x => x == a) x) = false := by
      intro x hx
      rcases List.mem_filter.mp hx with ⟨_, hxna⟩
      simp only [decide_eq_true_eq] at hxna
      simp only [beq_eq_false_iff_ne, ne_eq]
      intro hxa
      exact hxna (hxa ▸ hax)
    rw [findIdx_append_of_none _ _ _ hnotkeep]
    have hfi : axes.findIdx (fun x => x == a) < axes.length := findIdx_lt_of_mem hax
    rw [List.getD_append_right m r 0 _ (by omega)]
    congr 1
    omega
  · rw [if_neg hax]
    have hkeep : a ∈ keep_axes axes ndim :=
      List.mem_filter.mpr ⟨ha, by simpa using hax⟩
    have hflt : (keep_axes axes ndim).findIdx (fun x => x == a) <
        (keep_axes axes ndim).length := findIdx_lt_of_mem hkeep
    rw [findIdx_append_of_lt _ _ _ hflt, List.getD_append m r 0 _ (by omega)]

lemma axis_apply_kernel_last (fn : List Int → Int) (s1 : List Nat) (P : Nat) (x : Tensor)
    (hx : x.shape = s1 ++ [P]) (hdata : x.data.length = x.shape.prod) :
    axis_apply_kernel fn (List.range (s1.length + 1)) x =
      ⟨s1, (allIndices s1).map (fun m =>
        fn ((List.range P).map (fun j => tensorGet x (m ++ [j]))))⟩ := by
  have hxr : npTranspose (List.range (s1.length + 1)) x = x :=
    npTranspose_range x (s1.length + 1) (by rw [hx]; simp) hdata
  show (⟨(npTranspose (List.range (s1.length + 1)) x).shape.dropLast,
    (allIndices (npTranspose (List.range (s1.length + 1)) x).shape.dropLast).map (fun m =>
      fn ((List.range ((npTranspose (List.range (s1.length + 1)) x).shape.getLast?.getD 0)).map
        (fun j => tensorGet (npTranspose (List.range (s1.length + 1)) x) (m ++ [j]))))⟩ :
    Tensor) = _
  rw [hxr, hx, List.dropLast_concat, List.getLast?_concat]
  rfl

/-- C8: the Argmax kernel returns the constant index 0 for rank-0 inputs;
for inputs of positive rank it moves the kept axes to the front, flattens
the reduced axes into one trailing axis, and returns, for each kept
coordinate, the row-major flat index of the (first) maximum within the
flattened joint reduced-axes block — exactly `argmaxJointSpec`. -/
theorem numba_funcify_Argmax_flat_joint :
    (∀ axes : List Nat, ∃ g, numba_funcify_Argmax axes 0 = .ok g ∧
      ∀ t, g t = scalarTensor 0) ∧
    (∀ (axes : List Nat) (ndim : Nat) (t : Tensor), 0 < ndim →
      t.shape.length = ndim → axes.Nodup → (∀ a ∈ axes, a < ndim) →
      ∃ g, numba_funcify_Argmax axes ndim = .ok g ∧ g t = argmaxJointSpec axes t) := by
  constructor
  · intro axes
    refine ⟨_, ?_, fun t => rfl⟩
    rw [numba_funcify_Argmax, if_pos rfl]
  · intro axes ndim t hpos hlen hnd hb
    have hcount := keepAxes_length_add hnd hb
    have happ : create_axis_apply_fn (fun l => Int.ofNat (npArgmax l))
        (Int.ofNat (ndim - axes.length + 1 - 1)) (ndim - axes.length + 1) =
        .ok (axis_apply_kernel (fun l => Int.ofNat (npArgmax l))
          ((List.range (ndim - axes.length + 1)).filter
            (fun i => i ≠ (ndim - axes.length + 1 - 1)) ++ [ndim - axes.length + 1 - 1])) := by
      rw [create_axis_apply_fn, normalize_axis_index_ofNat (by omega)]
      rfl
    have hok : numba_funcify_Argmax axes ndim = .ok (argmax_kernel
        (axis_apply_kernel (fun l => Int.ofNat (npArgmax l))
          ((List.range (ndim - axes.length + 1)).filter
            (fun i => i ≠ (ndim - axes.length + 1 - 1)) ++ [ndim - axes.length + 1 - 1]))
        (keep_axes axes ndim) axes) := by
      rw [numba_funcify_Argmax, if_neg (by omega)]
      simp only [happ]
      rfl
    refine ⟨_, hok, ?_⟩
    have hfilt : (List.range (ndim - axes.length + 1)).filter
        (fun i => i ≠ (ndim - axes.length + 1 - 1)) ++ [ndim - axes.length + 1 - 1] =
        List.range ((keep_axes axes ndim).length + 1) := by
      have h1 : ndim - axes.length + 1 = (keep_axes axes ndim).length + 1 := by omega
      have h2 : (keep_axes axes ndim).length + 1 - 1 = (keep_axes axes ndim).length := by omega
      rw [h1, h2]
      exact filter_ne_last (keep_axes axes ndim).length
    rw [hfilt]
    have hsplit : subShape t (keep_axes axes ndim ++ axes) =
        subShape t (keep_axes axes ndim) ++ subShape t axes := List.map_append _ _ _
    have hshape : (npTranspose (keep_axes axes ndim ++ axes) t).shape =
        subShape t (keep_axes axes ndim) ++ subShape t axes := by
      show subShape t (keep_axes axes ndim ++ axes) = _
      exact hsplit
    have hdata2 : (npTranspose (keep_axes axes ndim ++ axes) t).data =
        (allIndices (subShape t (keep_axes axes ndim) ++ subShape t axes)).map
          (fun idx => tensorGet t (permuteIdx (keep_axes axes ndim ++ axes) idx)) := by
      show (allIndices (subShape t (keep_axes axes ndim ++ axes))).map
        (fun idx => tensorGet t (permuteIdx (keep_axes axes ndim ++ axes) idx)) = _
      rw [hsplit]
    have hdlen : (npTranspose (keep_axes axes ndim ++ axes) t).data.length =
        (subShape t (keep_axes axes ndim) ++ subShape t axes).prod := by
      rw [hdata2, List.length_map, length_allIndices]
    show axis_apply_kernel (fun l => Int.ofNat (npArgmax l))
        (List.range ((keep_axes axes ndim).length + 1))
        (reshape (npTranspose (keep_axes axes ndim ++ axes) t)
          (((npTranspose (keep_axes axes ndim ++ axes) t).shape.take
              (keep_axes axes ndim).length) ++
            [((npTranspose (keep_axes axes ndim ++ axes) t).shape.drop
                (keep_axes axes ndim).length).foldl (· * ·) 1])) = argmaxJointSpec axes t
    rw [hshape]
    have hlenkS : (keep_axes axes ndim).length = (subShape t (keep_axes axes ndim)).length :=
      (List.length_map _ _).symm
    rw [hlenkS, List.take_left, List.drop_left, ← List.prod_eq_foldl]
    have hd : (reshape (npTranspose (keep_axes axes ndim ++ axes) t)
        (subShape t (keep_axes axes ndim) ++ [(subShape t axes).prod])).data.length =
        (reshape (npTranspose (keep_axes axes ndim ++ axes) t)
          (subShape t (keep_axes axes ndim) ++ [(subShape t axes).prod])).shape.prod := by
      show (npTranspose (keep_axes axes ndim ++ axes) t).data.length =
        (subShape t (keep_axes axes ndim) ++ [(subShape t axes).prod]).prod
      rw [hdlen]
      simp [List.prod_append]
    rw [axis_apply_kernel_last (fun l => Int.ofNat (npArgmax l))
      (subShape t (keep_axes axes ndim)) ((subShape t axes).prod)
      (reshape (npTranspose (keep_axes axes ndim ++ axes) t)
        (subShape t (keep_axes axes ndim) ++ [(subShape t axes).prod])) rfl hd]
    have hspec : argmaxJointSpec axes t =
        ⟨subShape t (keep_axes axes ndim),
          (allIndices (subShape t (keep_axes axes ndim))).map (fun m =>
            Int.ofNat (npArgmax ((allIndices (subShape t axes)).map (fun r =>
              tensorGet t (mergeIdx (keep_axes axes ndim) axes ndim m r)))))⟩ := by
      show (⟨subShape t (keep_axes axes t.shape.length),
        (allIndices (subShape t (keep_axes axes t.shape.length))).map (fun m =>
          Int.ofNat (npArgmax ((allIndices (subShape t axes)).map (fun r =>
            tensorGet t (mergeIdx (keep_axes axes t.shape.length) axes t.shape.length
              m r)))))⟩ : Tensor) = _
      rw [hlen]
    rw [hspec]
    have hrow : ∀ m ∈ allIndices (subShape t (keep_axes axes ndim)),
        (List.range ((subShape t axes).prod)).map (fun j =>
          tensorGet (reshape (npTranspose (keep_axes axes ndim ++ axes) t)
            (subShape t (keep_axes axes ndim) ++ [(subShape t axes).prod])) (m ++ [j])) =
        (allIndices (subShape t axes)).map (fun r =>
          tensorGet t (mergeIdx (keep_axes axes ndim) axes ndim m r)) := by
      intro m hm
      have hmv : validIdx (subShape t (keep_axes axes ndim)) m := mem_allIndices.mp hm
      have hpoint : ∀ j ∈ List.range ((subShape t axes).prod),
          tensorGet (reshape (npTranspose (keep_axes axes ndim ++ axes) t)
            (subShape t (keep_axes axes ndim) ++ [(subShape t axes).prod])) (m ++ [j]) =
          tensorGet t (mergeIdx (keep_axes axes ndim) axes ndim m
            ((allIndices (subShape t axes)).getD j [])) := by
        intro j hj
        have hjlt : j < (subShape t axes).prod := List.mem_range.mp hj
        have hjlt' : j < (allIndices (subShape t axes)).length := by
          rw [length_allIndices]
          exact hjlt
        have hrmem : (allIndices (subShape t axes)).getD j [] ∈
            allIndices (subShape t axes) := by
          rw [List.getD_eq_getElem _ _ hjlt']
          exact List.getElem_mem hjlt'
        have hrv : validIdx (subShape t axes) ((allIndices (subShape t axes)).getD j []) :=
          mem_allIndices.mp hrmem
        have hrflat : flatIndex (subShape t axes)
            ((allIndices (subShape t axes)).getD j []) = j := by
          have h1 := congrArg (fun l => l.getD j 0)
            (map_flatIndex_allIndices (subShape t axes))
          simp only at h1
          rw [getD_map_of_lt _ _ _ hjlt' [], getD_range_of_lt _ _ hjlt] at h1
          exact h1
        show (npTranspose (keep_axes axes ndim ++ axes) t).data.getD
          (flatIndex (subShape t (keep_axes axes ndim) ++ [(subShape t axes).prod])
            (m ++ [j])) 0 = _
        rw [flatIndex_append _ _ _ _ ((validIdx_length hmv).symm) (by simp),
          flatIndex_singleton]
        have hfull : flatIndex (subShape t (keep_axes axes ndim) ++ subShape t axes)
            (m ++ (allIndices (subShape t axes)).getD j []) =
            flatIndex (subShape t (keep_axes axes ndim)) m * (subShape t axes).prod + j := by
          rw [flatIndex_append _ _ _ _ ((validIdx_length hmv).symm)
            (le_of_eq (validIdx_length hrv).symm), hrflat]
        have hvalid2 : validIdx (subShape t (keep_axes axes ndim) ++ subShape t axes)
            (m ++ (allIndices (subShape t axes)).getD j []) :=
          forall₂_append_of hmv hrv
        have hgm := tensorGet_mk_map (subShape t (keep_axes axes ndim) ++ subShape t axes)
          (fun idx => tensorGet t (permuteIdx (keep_axes axes ndim ++ axes) idx)) hvalid2
        rw [hdata2]
        have hidx : flatIndex (subShape t (keep_axes axes ndim)) m *
            ([(subShape t axes).prod].prod) + j =
            flatIndex (subShape t (keep_axes axes ndim) ++ subShape t axes)
              (m ++ (allIndices (subShape t axes)).getD j []) := by
          rw [hfull]
          simp
        rw [hidx]
        rw [show ((allIndices (subShape t (keep_axes axes ndim) ++ subShape t axes)).map
          (fun idx => tensorGet t (permuteIdx (keep_axes axes ndim ++ axes) idx))).getD
            (flatIndex (subShape t (keep_axes axes ndim) ++ subShape t axes)
              (m ++ (allIndices (subShape t axes)).getD j [])) 0 =
          tensorGet t (permuteIdx (keep_axes axes ndim ++ axes)
            (m ++ (allIndices (subShape t axes)).getD j [])) from hgm]
        rw [permuteIdx_merge hnd hb (by rw [validIdx_length hmv, subShape, List.length_map])]
      rw [List.map_congr_left hpoint]
      have hL : (subShape t axes).prod = (allIndices (subShape t axes)).length :=
        (length_allIndices _).symm
      rw [hL]
      exact range_map_getD (allIndices (subShape t axes)) []
        (fun r => tensorGet t (mergeIdx (keep_axes axes ndim) axes ndim m r))
    congr 1
    apply List.map_congr_left
    intro m hm
    rw [hrow m hm]

/-- Witness for C8: argmax over axes `{1, 2}` of a `(2,3,2)` array
matches the joint flat argmax per kept coordinate. -/
theorem numba_funcify_Argmax_flat_joint_witness :
    ∃ g, numba_funcify_Argmax [1, 2] 3 = .ok g ∧
      g ⟨[2, 3, 2], [5, 1, 2, 9, 3, 3, 0, 4, 8, 2, 7, 7]⟩ =
        argmaxJointSpec [1, 2] ⟨[2, 3, 2], [5, 1, 2, 9, 3, 3, 0, 4, 8, 2, 7, 7]⟩ :=
  numba_funcify_Argmax_flat_joint.2 [1, 2] 3 ⟨[2, 3, 2], [5, 1, 2, 9, 3, 3, 0, 4, 8, 2, 7, 7]⟩
    (by decide) (by decide) (by decide) (by decide)
